import Mathlib

/-!
Verification of the cs-demo-viewer event-aggregation engine
(`internal/demo/parser.go`) and of the viewer's zoom/pan arithmetic
(`docs/design.md`).

The Go parser is callback-driven: demoinfocs invokes a registered handler
per decoded event, and a `ParseNextFrame` loop samples player positions.
We embed it as a state machine: each notification becomes a constructor of
`Ev` carrying exactly the data the corresponding handler reads from the
decoder (the in-game tick counter, the event's fields, and a snapshot of
the playing participants for the frame-capture path), and each handler
becomes a case of `step`.  World coordinates and view angles are carried as
the integers produced by the parser's `iround` quantisation, since every
handler stores only `iround`-ed values.  Go maps are embedded as
association lists (`alookup` finds the most recent binding, matching map
lookup); Go slices as `List`.  `MapName` (set once after the loop) carries
no claim and is omitted from the state.
-/

namespace DemoViewer

/-- Team of a player or winner of a round (`common.Team`): counter-terrorists,
terrorists, or anything else (spectator/unassigned). -/
inductive Team where
  | ct
  | t
  | spec
deriving DecidableEq, Repr

/-- Data a handler can read from a non-nil `*common.Player`: steam id
(0 = invalid), name, team, alive flag, health, `iround`-ed position and
view direction, and whether the game state reports this player as the
bomb carrier (`pl.SteamID64 == carrierID` in `captureFrame`). -/
structure PlayerRef where
  sid : Nat
  name : String
  team : Team
  alive : Bool
  hp : Int
  x : Int
  y : Int
  z : Int
  yaw : Int
  carrier : Bool
deriving DecidableEq, Repr

/-- `PlayerInfo`: static identity of a player (id = decimal steam id). -/
structure PlayerInfo where
  id : String
  name : String
deriving DecidableEq, Repr

/-- `PlayerStat`: per-player match aggregate, parallel to the players list. -/
structure PlayerStat where
  k : Int
  d : Int
  hs : Int
  dmg : Int
  r : Int
deriving DecidableEq, Repr

/-- The zero value `PlayerStat{}` appended by `getIdx`. -/
def PlayerStat.zero : PlayerStat := ⟨0, 0, 0, 0, 0⟩

/-- `PlayerState`: one player's snapshot inside a frame. -/
structure PlayerState where
  idx : Int
  flags : Int
  hp : Int
  x : Int
  y : Int
  z : Int
  yaw : Int
deriving DecidableEq, Repr

/-- `Frame`: one sampled tick's snapshot of all player states. -/
structure Frame where
  tick : Int
  players : List PlayerState
deriving DecidableEq, Repr

/-- `Kill` record (second field block includes cumulative `DMG`). -/
structure Kill where
  tick : Int
  atkIdx : Int
  vicIdx : Int
  weapon : String
  hs : Bool
  atkX : Int
  atkY : Int
  vicX : Int
  vicY : Int
  dmg : Int
deriving DecidableEq, Repr

/-- `BombAction`: tick, action code 0..6, last-known bomb position, site. -/
structure BombAction where
  tick : Int
  action : Int
  x : Int
  y : Int
  site : String
deriving DecidableEq, Repr

/-- `Grenade`: start/end tick, type tag, ground position. -/
structure Grenade where
  startTick : Int
  endTick : Int
  gtype : Int
  x : Int
  y : Int
deriving DecidableEq, Repr

/-- `Shot`: a deduplicated weapon-fire sample. -/
structure Shot where
  tick : Int
  pIdx : Int
deriving DecidableEq, Repr

/-- `Round`: the per-round accumulator and output record. -/
structure Round where
  num : Int
  winner : String
  ctScore : Int
  tScore : Int
  freezeEnd : Int
  frames : List Frame
  kills : List Kill
  bomb : List BombAction
  grenades : List Grenade
  shots : List Shot
  dmgLog : List (Int × Int)
deriving DecidableEq, Repr

/-- Association-list lookup; first (most recent) binding wins, matching Go
map semantics under our cons-on-update embedding. -/
def alookup {α β : Type} [DecidableEq α] : List (α × β) → α → Option β
  | [], _ => none
  | (k, v) :: rest, x => if k = x then some v else alookup rest x

/-- In-place update of the element at an index (Go `slice[i] = ...`);
out-of-range indices leave the list unchanged (unreachable in the code,
which guards every indexed write). -/
def listModify {α : Type} (f : α → α) : Nat → List α → List α
  | _, [] => []
  | 0, a :: as => f a :: as
  | n + 1, a :: as => a :: listModify f n as

/-- `SampleTicks`: ticks between sampled frames. -/
def SampleTicks : Int := 16

/-- The aggregator's full mutable state: the `DemoData` being built
(players, stats, rounds) plus the local variables of `Parse`. -/
structure PState where
  pidx : List (Nat × Nat)
  players : List PlayerInfo
  stats : List PlayerStat
  rounds : List Round
  cur : Option Round
  inRound : Bool
  roundNum : Int
  freezeEndTick : Int
  ctScore : Int
  tScore : Int
  lastShot : List (Int × Int)
  roundVicDmg : List ((Int × Int) × Int)
  bombX : Int
  bombY : Int
  bombSite : String
deriving DecidableEq, Repr

/-- The state at the start of `Parse`: everything zero/empty. -/
def initState : PState :=
  ⟨[], [], [], [], none, false, 0, 0, 0, 0, [], [], 0, 0, ""⟩

/-- `getIdx`: resolve a player reference to its stable index, growing
`players`/`stats` in parallel on first sight; refreshes the stored name on
every hit; `-1` for nil. -/
def getIdx (st : PState) : Option PlayerRef → Int × PState
  | none => (-1, st)
  | some p =>
    match alookup st.pidx p.sid with
    | some i =>
      (Int.ofNat i,
        { st with players := listModify (fun pi => { pi with name := p.name }) i st.players })
    | none =>
      let i := st.players.length
      (Int.ofNat i,
        { st with
          pidx := (p.sid, i) :: st.pidx,
          players := st.players ++ [⟨toString p.sid, p.name⟩],
          stats := st.stats ++ [PlayerStat.zero] })

/-- One iteration of `captureFrame`'s participant loop: skip invalid ids,
compute the flags word, resolve the index (possibly growing the state). -/
def capturePlayer (acc : List PlayerState × PState) (p : PlayerRef) :
    List PlayerState × PState :=
  if p.sid = 0 then acc
  else
    let flags0 : Int := if p.team = Team.ct then 0 else 2
    let flags1 : Int := if p.alive then flags0 else flags0 + 1
    let flags2 : Int := if p.carrier then Int.lor flags1 4 else flags1
    let (i, st') := getIdx acc.2 (some p)
    (acc.1 ++ [⟨i, flags2, p.hp, p.x, p.y, p.z, p.yaw⟩], st')

/-- `captureFrame`: snapshot every playing participant at a tick. -/
def captureFrame (st : PState) (tick : Int) (snap : List PlayerRef) :
    Frame × PState :=
  let (ps, st') := snap.foldl capturePlayer ([], st)
  (⟨tick, ps⟩, st')

/-- The `RoundEnd` winner switch: only CT/T overwrite the stored tag. -/
def winnerTag (w : Team) (prev : String) : String :=
  match w with
  | Team.ct => "CT"
  | Team.t => "T"
  | Team.spec => prev

/-- The round value as closed by `RoundEnd`: winner resolved and one final
frame force-captured at the end tick (kept only if non-empty), together
with the state after the capture's `getIdx` calls. -/
def closedRound (st : PState) (r : Round) (tick : Int) (w : Team)
    (snap : List PlayerRef) : Round × PState :=
  let r1 := { r with winner := winnerTag w r.winner }
  let (f, st1) := captureFrame st tick snap
  let r2 := if f.players ≠ [] then { r1 with frames := r1.frames ++ [f] } else r1
  (r2, st1)

/-- The rounds-played credit loop over the first frame's player list. -/
def bumpRounds (stats : List PlayerStat) : List PlayerState → List PlayerStat
  | [] => stats
  | ps :: rest =>
    let stats' :=
      if 0 ≤ ps.idx ∧ ps.idx < Int.ofNat stats.length then
        listModify (fun s => { s with r := s.r + 1 }) ps.idx.toNat stats
      else stats
    bumpRounds stats' rest

/-- `RoundEnd` handler: resolve winner, bump the running score, force-capture
a final frame, retain the round only when it has at least 5 frames (crediting
rounds-played from the first frame), then close the accumulator. -/
def handleRoundEnd (st : PState) (tick : Int) (w : Team)
    (snap : List PlayerRef) : PState :=
  match st.cur with
  | none => st
  | some r =>
    let (r2, st1) := closedRound st r tick w snap
    let ct' := if r2.winner = "CT" then st.ctScore + 1 else st.ctScore
    let t' := if r2.winner = "T" then st.tScore + 1 else st.tScore
    let st2 :=
      if 5 ≤ r2.frames.length then
        let stats' :=
          if 0 < r2.frames.length then
            bumpRounds st1.stats (r2.frames.headD ⟨0, []⟩).players
          else st1.stats
        { st1 with stats := stats', rounds := st1.rounds ++ [r2] }
      else st1
    { st2 with cur := none, inRound := false, ctScore := ct', tScore := t' }

/-- `Kill` handler: guard on open round and resolvable killer/victim, then
append a kill enriched with the accumulated per-round damage and bump the
match stats. -/
def handleKill (st : PState) (tick : Int) (killer victim : Option PlayerRef)
    (weapon : Option String) (hs : Bool) : PState :=
  match st.cur, killer, victim with
  | some r, some kp, some vp =>
    let wep := match weapon with
      | some w => w
      | none => ""
    let (ai, st1) := getIdx st (some kp)
    let (vi, st2) := getIdx st1 (some vp)
    let killDmg := (alookup st2.roundVicDmg (ai, vi)).getD 0
    let r' := { r with kills :=
      r.kills ++ [⟨tick, ai, vi, wep, hs, kp.x, kp.y, vp.x, vp.y, killDmg⟩] }
    let stats1 :=
      if 0 ≤ ai ∧ ai < Int.ofNat st2.stats.length then
        listModify (fun s => { s with k := s.k + 1, hs := if hs then s.hs + 1 else s.hs })
          ai.toNat st2.stats
      else st2.stats
    let stats2 :=
      if 0 ≤ vi ∧ vi < Int.ofNat stats1.length then
        listModify (fun s => { s with d := s.d + 1 }) vi.toNat stats1
      else stats1
    { st2 with cur := some r', stats := stats2 }
  | _, _, _ => st

/-- `PlayerHurt` handler: guard on open round, resolvable attacker/victim
and differing teams, then accumulate the match damage stat, the per-round
damage log, and the per-(attacker, victim) damage map. -/
def handlePlayerHurt (st : PState) (attacker victim : Option PlayerRef)
    (hd : Int) : PState :=
  match st.cur, attacker, victim with
  | some r, some ap, some vp =>
    if ap.team = vp.team then st
    else
      let (ai, st1) := getIdx st (some ap)
      let (vi, st2) := getIdx st1 (some vp)
      let st3 :=
        if 0 ≤ ai ∧ ai < Int.ofNat st2.stats.length then
          { st2 with
            stats := listModify (fun s => { s with dmg := s.dmg + hd }) ai.toNat st2.stats,
            cur := some { r with dmgLog := r.dmgLog ++ [(ai, hd)] } }
        else st2
      if 0 ≤ ai ∧ 0 ≤ vi then
        { st3 with roundVicDmg :=
            ((ai, vi), (alookup st3.roundVicDmg (ai, vi)).getD 0 + hd) :: st3.roundVicDmg }
      else st3
  | _, _, _ => st

/-- `BombPlantBegin` handler (action 0): remember the planter's position and
the site. -/
def handleBombPlantBegin (st : PState) (tick : Int) (player : Option PlayerRef)
    (site : String) : PState :=
  match st.cur, player with
  | some r, some pl =>
    { st with bombX := pl.x, bombY := pl.y, bombSite := site,
              cur := some { r with bomb := r.bomb ++ [⟨tick, 0, pl.x, pl.y, site⟩] } }
  | _, _ => st

/-- `BombPlanted` handler (action 1). -/
def handleBombPlanted (st : PState) (tick : Int) (player : Option PlayerRef)
    (site : String) : PState :=
  match st.cur, player with
  | some r, some pl =>
    { st with bombX := pl.x, bombY := pl.y, bombSite := site,
              cur := some { r with bomb := r.bomb ++ [⟨tick, 1, pl.x, pl.y, site⟩] } }
  | _, _ => st

/-- `BombDefuseStart` handler (action 2): uses the last known bomb
position and site. -/
def handleBombDefuseStart (st : PState) (tick : Int)
    (player : Option PlayerRef) : PState :=
  match st.cur, player with
  | some r, some _ =>
    { st with cur := some { r with bomb :=
        r.bomb ++ [⟨tick, 2, st.bombX, st.bombY, st.bombSite⟩] } }
  | _, _ => st

/-- `BombDefused` handler (action 3): site taken from the event. -/
def handleBombDefused (st : PState) (tick : Int) (player : Option PlayerRef)
    (site : String) : PState :=
  match st.cur, player with
  | some r, some _ =>
    { st with cur := some { r with bomb :=
        r.bomb ++ [⟨tick, 3, st.bombX, st.bombY, site⟩] } }
  | _, _ => st

/-- `BombExplode` handler (action 4): only the open-round guard. -/
def handleBombExplode (st : PState) (tick : Int) : PState :=
  match st.cur with
  | some r =>
    { st with cur := some { r with bomb :=
        r.bomb ++ [⟨tick, 4, st.bombX, st.bombY, st.bombSite⟩] } }
  | none => st

/-- `BombDropped` handler (action 5): updates the bomb position from the
dropping player. -/
def handleBombDropped (st : PState) (tick : Int)
    (player : Option PlayerRef) : PState :=
  match st.cur, player with
  | some r, some pl =>
    { st with bombX := pl.x, bombY := pl.y,
              cur := some { r with bomb :=
                r.bomb ++ [⟨tick, 5, pl.x, pl.y, st.bombSite⟩] } }
  | _, _ => st

/-- `BombPickup` handler (action 6): only the open-round guard. -/
def handleBombPickup (st : PState) (tick : Int) : PState :=
  match st.cur with
  | some r =>
    { st with cur := some { r with bomb :=
        r.bomb ++ [⟨tick, 6, st.bombX, st.bombY, st.bombSite⟩] } }
  | none => st

/-- `SmokeStart` handler: fixed-duration grenade, end tick 1152 ticks after
the start; type 4/5 by thrower team, 0 when unknown. -/
def handleSmokeStart (st : PState) (tick : Int) (thrower : Option PlayerRef)
    (x y : Int) : PState :=
  match st.cur with
  | none => st
  | some r =>
    let smokeType : Int :=
      match thrower with
      | some th =>
        if th.team = Team.ct then 4 else if th.team = Team.t then 5 else 0
      | none => 0
    { st with cur := some { r with grenades :=
        r.grenades ++ [⟨tick, tick + 1152, smokeType, x, y⟩] } }

/-- `HeExplode` handler: instant grenade, type 2, end tick 0. -/
def handleHeExplode (st : PState) (tick : Int) (x y : Int) : PState :=
  match st.cur with
  | none => st
  | some r =>
    { st with cur := some { r with grenades :=
        r.grenades ++ [⟨tick, 0, 2, x, y⟩] } }

/-- `FlashExplode` handler: instant grenade, type 1, end tick 0. -/
def handleFlashExplode (st : PState) (tick : Int) (x y : Int) : PState :=
  match st.cur with
  | none => st
  | some r =>
    { st with cur := some { r with grenades :=
        r.grenades ++ [⟨tick, 0, 1, x, y⟩] } }

/-- `InfernoStart` handler: fixed-duration grenade, end tick 448 ticks after
the start, type 3, position from the inferno entity. -/
def handleInfernoStart (st : PState) (tick : Int) (x y : Int) : PState :=
  match st.cur with
  | none => st
  | some r =>
    { st with cur := some { r with grenades :=
        r.grenades ++ [⟨tick, tick + 448, 3, x, y⟩] } }

/-- `WeaponFire` handler: resolve the shooter (growing the state even when
the shot is then deduplicated, as the code does), drop the event when the
previous recorded shot of this player is fewer than `SampleTicks` ticks
old, otherwise append the shot and remember its tick. -/
def handleWeaponFire (st : PState) (tick : Int)
    (shooter : Option PlayerRef) : PState :=
  match st.cur, shooter with
  | some r, some sp =>
    let (pi, st1) := getIdx st (some sp)
    match alookup st1.lastShot pi with
    | some last =>
      if tick - last < SampleTicks then st1
      else
        { st1 with cur := some { r with shots := r.shots ++ [⟨tick, pi⟩] },
                   lastShot := (pi, tick) :: st1.lastShot }
    | none =>
      { st1 with cur := some { r with shots := r.shots ++ [⟨tick, pi⟩] },
                 lastShot := (pi, tick) :: st1.lastShot }
  | _, _ => st

/-- The sampling step of the `ParseNextFrame` loop body: inside an open
round, once freeze time has ended, capture a frame at every tick that is a
multiple of `SampleTicks` (kept only when non-empty). -/
def handleFrameAdvance (st : PState) (tick : Int)
    (snap : List PlayerRef) : PState :=
  match st.cur with
  | some r =>
    if st.inRound ∧ 0 < st.freezeEndTick ∧ st.freezeEndTick ≤ tick ∧
        tick % SampleTicks = 0 then
      let (f, st1) := captureFrame st tick snap
      if f.players ≠ [] then
        { st1 with cur := some { r with frames := r.frames ++ [f] } }
      else st1
    else st
  | none => st

/-- One decoder notification, carrying the data its handler reads. -/
inductive Ev where
  | roundStart (warmup : Bool)
  | freezeTimeEnd (tick : Int)
  | roundEnd (tick : Int) (winner : Team) (snap : List PlayerRef)
  | kill (tick : Int) (killer victim : Option PlayerRef)
      (weapon : Option String) (hs : Bool)
  | playerHurt (attacker victim : Option PlayerRef) (healthDamage : Int)
  | bombPlantBegin (tick : Int) (player : Option PlayerRef) (site : String)
  | bombPlanted (tick : Int) (player : Option PlayerRef) (site : String)
  | bombDefuseStart (tick : Int) (player : Option PlayerRef)
  | bombDefused (tick : Int) (player : Option PlayerRef) (site : String)
  | bombExplode (tick : Int)
  | bombDropped (tick : Int) (player : Option PlayerRef)
  | bombPickup (tick : Int)
  | smokeStart (tick : Int) (thrower : Option PlayerRef) (x y : Int)
  | heExplode (tick : Int) (x y : Int)
  | flashExplode (tick : Int) (x y : Int)
  | infernoStart (tick : Int) (x y : Int)
  | weaponFire (tick : Int) (shooter : Option PlayerRef)
  | frameAdvance (tick : Int) (snap : List PlayerRef)
deriving DecidableEq, Repr

/-- Dispatch: exactly the registered handlers plus the sampling loop body. -/
def step (st : PState) : Ev → PState
  | .roundStart warmup =>
    if warmup then st
    else
      { st with
        roundNum := st.roundNum + 1,
        cur := some
          { num := st.roundNum + 1, winner := "", ctScore := st.ctScore,
            tScore := st.tScore, freezeEnd := 0, frames := [], kills := [],
            bomb := [], grenades := [], shots := [], dmgLog := [] },
        freezeEndTick := 0, inRound := true, lastShot := [], roundVicDmg := [] }
  | .freezeTimeEnd tick =>
    match st.cur with
    | none => st
    | some r => { st with freezeEndTick := tick, cur := some { r with freezeEnd := tick } }
  | .roundEnd tick w snap => handleRoundEnd st tick w snap
  | .kill tick k v wep hs => handleKill st tick k v wep hs
  | .playerHurt a v hd => handlePlayerHurt st a v hd
  | .bombPlantBegin tick pl site => handleBombPlantBegin st tick pl site
  | .bombPlanted tick pl site => handleBombPlanted st tick pl site
  | .bombDefuseStart tick pl => handleBombDefuseStart st tick pl
  | .bombDefused tick pl site => handleBombDefused st tick pl site
  | .bombExplode tick => handleBombExplode st tick
  | .bombDropped tick pl => handleBombDropped st tick pl
  | .bombPickup tick => handleBombPickup st tick
  | .smokeStart tick th x y => handleSmokeStart st tick th x y
  | .heExplode tick x y => handleHeExplode st tick x y
  | .flashExplode tick x y => handleFlashExplode st tick x y
  | .infernoStart tick x y => handleInfernoStart st tick x y
  | .weaponFire tick sh => handleWeaponFire st tick sh
  | .frameAdvance tick snap => handleFrameAdvance st tick snap

/-- Run the aggregator over a whole notification stream. -/
def runEvents (evs : List Ev) : PState := evs.foldl step initState

/-! ### Grenade trajectory handler (first handler block of `parser.go`)

The `GrenadeProjectileDestroy` handler lives in the first `parser.go`
block, which also defines `GrenadeTrail` with a type tag and a point
list. -/

/-- `common.EquipmentType` values as distinguished by
`equipToGrenadeType`; `other` stands for every untracked type. -/
inductive EquipmentType where
  | smoke
  | flash
  | he
  | molotov
  | incendiary
  | other
deriving DecidableEq, Repr

/-- `equipToGrenadeType`: equipment type to `Grenade.Type` constant,
`-1` for untracked types. -/
def equipToGrenadeType : EquipmentType → Int
  | .smoke => 0
  | .flash => 1
  | .he => 2
  | .molotov => 3
  | .incendiary => 3
  | .other => -1

/-- One `Trajectory2` sample: frame id and `iround`-ed position. -/
structure TrajectoryEntry where
  frameID : Int
  x : Int
  y : Int
deriving DecidableEq, Repr

/-- The data the destroy handler reads from `e.Projectile`: the weapon
instance's type (`none` models a nil `WeaponInstance`) and the raw
trajectory. -/
structure Projectile where
  weaponType : Option EquipmentType
  trajectory2 : List TrajectoryEntry
deriving DecidableEq, Repr

/-- `GrenadeTrail` of the first block: type tag and `[frameID, x, y]`
points. -/
structure GrenadeTrail where
  gtype : Int
  points : List (Int × Int × Int)
deriving DecidableEq, Repr

/-- The `GrenadeProjectileDestroy` handler: the trail appended to
`cur.Trails`, or `none` when the event is dropped (`cur == nil`, nil
projectile or weapon instance, untracked type, or fewer than 2 samples). -/
def destroyTrail (curOpen : Bool) (proj : Option Projectile) :
    Option GrenadeTrail :=
  if ¬ curOpen then none
  else
    match proj with
    | none => none
    | some p =>
      match p.weaponType with
      | none => none
      | some w =>
        let gt := equipToGrenadeType w
        if gt < 0 then none
        else if p.trajectory2.length < 2 then none
        else some ⟨gt, p.trajectory2.map (fun te => (te.frameID, te.x, te.y))⟩

/-! ### Viewer zoom/pan arithmetic (`docs/design.md`)

The world-to-canvas transform `w2c`, the scroll-wheel zoom gesture and
`clampPan`, embedded over `ℚ` (the algebra is exact; JS floats only add
rounding noise on top of it). -/

/-- Viewer constant `RADAR_SIZE`. -/
def radarSize : ℚ := 1024

/-- Per-map overview origin and scale (`DEMO.meta`). -/
structure MapMeta where
  posX : ℚ
  posY : ℚ
  scale : ℚ
deriving DecidableEq, Repr

/-- Canvas size plus the viewer's zoom/pan state. -/
structure Viewport where
  canvasW : ℚ
  canvasH : ℚ
  zoom : ℚ
  panX : ℚ
  panY : ℚ
deriving DecidableEq, Repr

/-- `w2c`: world coordinates to canvas pixel under the current viewport. -/
def w2c (m : MapMeta) (v : Viewport) (wx wy : ℚ) : ℚ × ℚ :=
  let cs := v.canvasW / radarSize
  let bx := ((wx - m.posX) / m.scale) * cs
  let byv := ((m.posY - wy) / m.scale) * cs
  let cx := v.canvasW / 2
  let cy := v.canvasH / 2
  ((bx - cx) * v.zoom + cx + v.panX, (byv - cy) * v.zoom + cy + v.panY)

/-- `clampPan`: both pan axes clamped to the width-derived bound. -/
def clampPan (v : Viewport) : Viewport :=
  let maxPan := v.canvasW / 2 * (v.zoom - 1)
  { v with panX := max (-maxPan) (min maxPan v.panX),
           panY := max (-maxPan) (min maxPan v.panY) }

/-- The scroll-wheel handler before its final `clampPan()` call:
re-anchor the pan to the cursor and set the new zoom. -/
def zoomPanRaw (v : Viewport) (mx my newZoom : ℚ) : Viewport :=
  { v with
    panX := mx - (mx - v.canvasW / 2 - v.panX) * (newZoom / v.zoom) - v.canvasW / 2,
    panY := my - (my - v.canvasH / 2 - v.panY) * (newZoom / v.zoom) - v.canvasH / 2,
    zoom := newZoom }

/-- The full scroll-wheel zoom gesture. -/
def zoomGesture (v : Viewport) (mx my newZoom : ℚ) : Viewport :=
  clampPan (zoomPanRaw v mx my newZoom)

/-! ### Spec-side damage ledger (claim C5's reference value) -/

/-- Modelled from the spec: the "health-damage amounts recorded for that
(attacker, victim) pair by player-damaged events handled in that same
round" — one `(attacker sid, victim sid, amount)` entry per player-damaged
notification handled while a round is open whose attacker and victim
resolve and are on different teams, the ledger resetting whenever a new
round opens (no carry-over). -/
def hurtsStep (s : PState × List (Nat × Nat × Int)) (ev : Ev) :
    PState × List (Nat × Nat × Int) :=
  let acc :=
    match ev with
    | .roundStart warmup => if warmup then s.2 else []
    | .playerHurt (some ap) (some vp) hd =>
      if s.1.cur ≠ none ∧ ap.team ≠ vp.team then s.2 ++ [(ap.sid, vp.sid, hd)]
      else s.2
    | _ => s.2
  (step s.1 ev, acc)

/-- The aggregator state paired with the spec-side ledger. -/
def runHurts (evs : List Ev) : PState × List (Nat × Nat × Int) :=
  evs.foldl hurtsStep (initState, [])

/-- Total damage the spec attributes to one (attacker, victim) pair. -/
def pairDmg (l : List (Nat × Nat × Int)) (a v : Nat) : Int :=
  l.foldl (fun acc e => if e.1 = a ∧ e.2.1 = v then acc + e.2.2 else acc) 0

/-! ### Concrete fixtures and predicates used by the claim theorems -/

/-- A valid playing participant. -/
def pA : PlayerRef := ⟨1, "a", Team.t, true, 100, 0, 0, 0, 0, false⟩

/-- A one-participant snapshot. -/
def snapA : List PlayerRef := [pA]

/-- A valid opponent on the other team. -/
def pB : PlayerRef := ⟨2, "b", Team.ct, true, 100, 0, 0, 0, 0, false⟩

/-- A round in which `pA` damages `pB` twice (27 + 73) before killing. -/
def traceC5 : List Ev :=
  [.roundStart false, .playerHurt (some pA) (some pB) 27,
   .playerHurt (some pA) (some pB) 73]

/-- The open round produced by `traceC5`: round 1, no frames yet, the two
damage entries logged against attacker index 0. -/
def rC5 : Round :=
  ⟨1, "", 0, 0, 0, [], [], [], [], [], [(0, 27), (0, 73)]⟩

/-- A round in which the decoder reports tick 640 on two consecutive
stream advances (the `DEM_FullPacket` reissue described in
`docs/design.md`), then ends at tick 700. -/
def traceC1 : List Ev :=
  [.roundStart false, .freezeTimeEnd 640,
   .frameAdvance 640 snapA, .frameAdvance 640 snapA, .frameAdvance 656 snapA,
   .frameAdvance 672 snapA, .frameAdvance 688 snapA, .roundEnd 700 Team.ct snapA]

/-- A round sampling four frames and then ending at tick 1001, which is
not a multiple of `SampleTicks`. -/
def traceC3 : List Ev :=
  [.roundStart false, .freezeTimeEnd 640,
   .frameAdvance 640 snapA, .frameAdvance 656 snapA,
   .frameAdvance 672 snapA, .frameAdvance 688 snapA, .roundEnd 1001 Team.ct snapA]

/-- A raw trajectory with 81 samples. -/
def traj81 : List TrajectoryEntry :=
  (List.range 81).map (fun i => ⟨Int.ofNat i, Int.ofNat i, 0⟩)

/-- The state right after a first (non-warmup) round start. -/
def stOpen : PState := step initState (.roundStart false)

/-- The snapshot of `pA` as stored in a captured frame. -/
def psA : PlayerState := ⟨0, 2, 100, 0, 0, 0, 0⟩

/-- The open accumulator after the first six events of `traceC3`: four
sampled frames, freeze end at 640. -/
def r0FourFrames : Round :=
  ⟨1, "", 0, 0, 640,
   [⟨640, [psA]⟩, ⟨656, [psA]⟩, ⟨672, [psA]⟩, ⟨688, [psA]⟩],
   [], [], [], [], []⟩

/-- The state after a round start and one recorded shot of `pA` at tick 5. -/
def stW : PState := runEvents [.roundStart false, .weaponFire 5 (some pA)]

/-- The accumulator inside `stW`. -/
def rW : Round := ⟨1, "", 0, 0, 0, [], [], [], [], [⟨5, 0⟩], []⟩

/-- The single retained round `traceC1` produces. -/
def roundC1 : Round :=
  ⟨1, "CT", 0, 0, 640,
   [⟨640, [psA]⟩, ⟨640, [psA]⟩, ⟨656, [psA]⟩, ⟨672, [psA]⟩, ⟨688, [psA]⟩,
    ⟨700, [psA]⟩],
   [], [], [], [], []⟩

/-- The accumulator the round start above opens. -/
def r0 : Round := ⟨1, "", 0, 0, 0, [], [], [], [], [], []⟩

/-- The event kinds claim C7 ranges over: kill, player-damaged, every bomb
notification, every grenade notification, and weapon-fired. -/
def dropGuarded : Ev → Bool
  | .kill .. => true
  | .playerHurt .. => true
  | .bombPlantBegin .. => true
  | .bombPlanted .. => true
  | .bombDefuseStart .. => true
  | .bombDefused .. => true
  | .bombExplode .. => true
  | .bombDropped .. => true
  | .bombPickup .. => true
  | .smokeStart .. => true
  | .heExplode .. => true
  | .flashExplode .. => true
  | .infernoStart .. => true
  | .weaponFire .. => true
  | _ => false

/-- A tick the sampling loop may emit: positive and a multiple of
`SampleTicks`. -/
def goodTick (t : Int) : Prop := 0 < t ∧ t % SampleTicks = 0

instance (t : Int) : Decidable (goodTick t) :=
  inferInstanceAs (Decidable (0 < t ∧ t % SampleTicks = 0))

/-- Frame-tick invariant: every frame of the open accumulator has a
sampling-loop tick, and every retained round's frames except possibly the
last (the forced round-end capture) do too. -/
def framesInv (st : PState) : Prop :=
  (∀ r, st.cur = some r → ∀ f ∈ r.frames, goodTick f.tick) ∧
  (∀ r ∈ st.rounds, ∀ f ∈ r.frames.dropLast, goodTick f.tick)

/-- Two shots of the same player are at least `SampleTicks` apart. -/
def shotRel (s1 s2 : Shot) : Prop :=
  s1.pIdx = s2.pIdx → s1.tick + SampleTicks ≤ s2.tick

instance (s1 s2 : Shot) : Decidable (shotRel s1 s2) :=
  inferInstanceAs (Decidable (s1.pIdx = s2.pIdx → s1.tick + SampleTicks ≤ s2.tick))

/-- A shot list in which same-player entries are `SampleTicks` apart. -/
def Spaced (l : List Shot) : Prop := l.Pairwise shotRel

/-- Tick of the last recorded shot of player `p` in a shot list. -/
def lastTick (p : Int) : List Shot → Option Int
  | [] => none
  | s :: rest =>
    match lastTick p rest with
    | some t => some t
    | none => if s.pIdx = p then some s.tick else none

/-- Shot-dedup invariant: the open round's shots are spaced and `lastShot`
holds exactly the tick of each player's last recorded shot; every retained
round's shots are spaced. -/
def shotsInv (st : PState) : Prop :=
  (∀ r, st.cur = some r →
    Spaced r.shots ∧ ∀ p : Int, alookup st.lastShot p = lastTick p r.shots) ∧
  (∀ r ∈ st.rounds, Spaced r.shots)

/-- Accumulator fields the bomb/grenade/kill/damage/freeze handlers never
touch: the retained rounds, the open round's frames and shots, and the
shot-dedup map. -/
def keepsAcc (st st' : PState) : Prop :=
  st'.rounds = st.rounds ∧
  st'.cur.map Round.frames = st.cur.map Round.frames ∧
  st'.cur.map Round.shots = st.cur.map Round.shots ∧
  st'.lastShot = st.lastShot

/-- Well-formedness of the steam-id index map: values index into the
players list, keys are unique, values are unique. -/
def pidxOK (st : PState) : Prop :=
  (∀ q ∈ st.pidx, q.2 < st.players.length) ∧
  (st.pidx.map Prod.fst).Nodup ∧
  (st.pidx.map Prod.snd).Nodup

/-- A state transition that only ever adds fresh bindings to the index
map: well-formedness is preserved and resolvable ids keep resolving to the
same index. -/
def pidxExt (st st' : PState) : Prop :=
  (pidxOK st → pidxOK st') ∧
  (∀ x : Nat, (alookup st.pidx x).isSome →
    alookup st'.pidx x = alookup st.pidx x)

/-- Damage the ledger attributes to the index pair (i, j) when its steam
ids are resolved through `pidx`. -/
def ledSum (pidx : List (Nat × Nat)) (led : List (Nat × Nat × Int))
    (i j : Int) : Int :=
  led.foldl
    (fun acc e =>
      if (alookup pidx e.1).map Int.ofNat = some i ∧
          (alookup pidx e.2.1).map Int.ofNat = some j then
        acc + e.2.2
      else acc) 0

/-- The damage-attribution invariant: the index map is well-formed, every
ledger entry's ids are resolvable, and the per-round damage map agrees
with the ledger on every index pair. -/
def dmgInv (st : PState) (led : List (Nat × Nat × Int)) : Prop :=
  pidxOK st ∧
  (∀ e ∈ led, (alookup st.pidx e.1).isSome ∧ (alookup st.pidx e.2.1).isSome) ∧
  (∀ i j : Int, (alookup st.roundVicDmg (i, j)).getD 0 = ledSum st.pidx led i j)

/-! ### Helper lemmas -/

/-- Fields of the state that `getIdx`/`captureFrame` never touch. -/
def agrees (st st' : PState) : Prop :=
  st'.rounds = st.rounds ∧ st'.cur = st.cur ∧ st'.inRound = st.inRound ∧
  st'.roundNum = st.roundNum ∧ st'.freezeEndTick = st.freezeEndTick ∧
  st'.ctScore = st.ctScore ∧ st'.tScore = st.tScore ∧
  st'.lastShot = st.lastShot ∧ st'.roundVicDmg = st.roundVicDmg ∧
  st'.bombX = st.bombX ∧ st'.bombY = st.bombY ∧ st'.bombSite = st.bombSite

theorem agrees_rfl (st : PState) : agrees st st := by
  simp [agrees]

theorem agrees_trans {a b c : PState} (h1 : agrees a b) (h2 : agrees b c) :
    agrees a c := by
  obtain ⟨e1, e2, e3, e4, e5, e6, e7, e8, e9, e10, e11, e12⟩ := h1
  obtain ⟨f1, f2, f3, f4, f5, f6, f7, f8, f9, f10, f11, f12⟩ := h2
  exact ⟨f1.trans e1, f2.trans e2, f3.trans e3, f4.trans e4, f5.trans e5,
    f6.trans e6, f7.trans e7, f8.trans e8, f9.trans e9, f10.trans e10,
    f11.trans e11, f12.trans e12⟩

theorem getIdx_agrees (st : PState) (p : Option PlayerRef) :
    agrees st (getIdx st p).2 := by
  cases p with
  | none => exact agrees_rfl st
  | some q =>
    unfold getIdx
    rcases h : alookup st.pidx q.sid with _ | i <;> simp [h, agrees]

theorem capturePlayer_agrees (acc : List PlayerState × PState) (p : PlayerRef) :
    agrees acc.2 (capturePlayer acc p).2 := by
  unfold capturePlayer
  split
  · exact agrees_rfl _
  · simpa using getIdx_agrees acc.2 (some p)

theorem foldCapture_agrees (snap : List PlayerRef)
    (acc : List PlayerState × PState) :
    agrees acc.2 ((snap.foldl capturePlayer acc).2) := by
  induction snap generalizing acc with
  | nil => exact agrees_rfl _
  | cons p rest ih =>
    simpa using agrees_trans (capturePlayer_agrees acc p)
      (ih (capturePlayer acc p))

theorem captureFrame_agrees (st : PState) (tick : Int)
    (snap : List PlayerRef) : agrees st (captureFrame st tick snap).2 := by
  unfold captureFrame
  simpa using foldCapture_agrees snap ([], st)

theorem closedRound_snd (st : PState) (r : Round) (tick : Int) (w : Team)
    (snap : List PlayerRef) :
    (closedRound st r tick w snap).2 = (captureFrame st tick snap).2 := by
  unfold closedRound
  rcases h : captureFrame st tick snap with ⟨f, st1⟩
  simp

theorem agreesRounds {a b : PState} (h : agrees a b) : b.rounds = a.rounds :=
  h.1

theorem agreesCur {a b : PState} (h : agrees a b) : b.cur = a.cur :=
  h.2.1

theorem agreesLastShot {a b : PState} (h : agrees a b) :
    b.lastShot = a.lastShot :=
  h.2.2.2.2.2.2.2.1

theorem agreesRvd {a b : PState} (h : agrees a b) :
    b.roundVicDmg = a.roundVicDmg :=
  h.2.2.2.2.2.2.2.2.1

theorem keepsAcc_rfl (st : PState) : keepsAcc st st :=
  ⟨rfl, rfl, rfl, rfl⟩

theorem keepsAcc_of_agrees {a b : PState} (h : agrees a b) : keepsAcc a b :=
  ⟨agreesRounds h, by rw [agreesCur h], by rw [agreesCur h], agreesLastShot h⟩

theorem keepsAcc_freezeTimeEnd (st : PState) (tick : Int) :
    keepsAcc st (step st (.freezeTimeEnd tick)) := by
  unfold step
  rcases hc : st.cur with _ | r <;> simp [keepsAcc, hc]

theorem handleKill_nilguard (st : PState) (t : Int)
    (k v : Option PlayerRef) (w : Option String) (hs : Bool)
    (h : st.cur = none ∨ k = none ∨ v = none) :
    handleKill st t k v w hs = st := by
  unfold handleKill
  rcases hc : st.cur with _ | r
  · cases k <;> cases v <;> simp
  · rcases h with h | h | h
    · rw [h] at hc
      simp at hc
    · subst h
      cases v <;> simp
    · subst h
      cases k <;> simp

theorem handlePlayerHurt_guard (st : PState) (a v : Option PlayerRef)
    (hd : Int) (h : st.cur = none ∨ a = none ∨ v = none) :
    handlePlayerHurt st a v hd = st := by
  unfold handlePlayerHurt
  rcases hc : st.cur with _ | r
  · cases a <;> cases v <;> simp
  · rcases h with h | h | h
    · rw [h] at hc
      simp at hc
    · subst h
      cases v <;> simp
    · subst h
      cases a <;> simp

theorem keepsAcc_kill (st : PState) (t : Int) (k v : Option PlayerRef)
    (w : Option String) (hs : Bool) :
    keepsAcc st (handleKill st t k v w hs) := by
  cases k with
  | none =>
    rw [handleKill_nilguard st t none v w hs (Or.inr (Or.inl rfl))]
    exact keepsAcc_rfl st
  | some kp =>
    cases v with
    | none =>
      rw [handleKill_nilguard st t (some kp) none w hs (Or.inr (Or.inr rfl))]
      exact keepsAcc_rfl st
    | some vp =>
      rcases hc : st.cur with _ | r
      · rw [handleKill_nilguard st t (some kp) (some vp) w hs (Or.inl hc)]
        exact keepsAcc_rfl st
      · unfold handleKill
        rw [hc]
        dsimp only
        rcases hg1 : getIdx st (some kp) with ⟨ai, st1⟩
        rcases hg2 : getIdx st1 (some vp) with ⟨vi, st2⟩
        have a1 := getIdx_agrees st (some kp)
        rw [hg1] at a1
        have a2 := getIdx_agrees st1 (some vp)
        rw [hg2] at a2
        replace a1 : agrees st st1 := a1
        replace a2 : agrees st1 st2 := a2
        have a12 := agrees_trans a1 a2
        refine ⟨?_, ?_, ?_, ?_⟩ <;>
          simp [hc, agreesRounds a12, agreesCur a12, agreesLastShot a12]

theorem keepsAcc_playerHurt (st : PState) (a v : Option PlayerRef)
    (hd : Int) : keepsAcc st (handlePlayerHurt st a v hd) := by
  cases a with
  | none =>
    rw [handlePlayerHurt_guard st none v hd (Or.inr (Or.inl rfl))]
    exact keepsAcc_rfl st
  | some ap =>
    cases v with
    | none =>
      rw [handlePlayerHurt_guard st (some ap) none hd (Or.inr (Or.inr rfl))]
      exact keepsAcc_rfl st
    | some vp =>
      rcases hc : st.cur with _ | r
      · rw [handlePlayerHurt_guard st (some ap) (some vp) hd (Or.inl hc)]
        exact keepsAcc_rfl st
      · unfold handlePlayerHurt
        rw [hc]
        dsimp only
        by_cases ht : ap.team = vp.team
        · rw [if_pos ht]
          exact keepsAcc_rfl st
        · rw [if_neg ht]
          rcases hg1 : getIdx st (some ap) with ⟨ai, st1⟩
          rcases hg2 : getIdx st1 (some vp) with ⟨vi, st2⟩
          have a1 := getIdx_agrees st (some ap)
          rw [hg1] at a1
          have a2 := getIdx_agrees st1 (some vp)
          rw [hg2] at a2
          replace a1 : agrees st st1 := a1
          replace a2 : agrees st1 st2 := a2
          have a12 := agrees_trans a1 a2
          split <;> split <;>
            refine ⟨?_, ?_, ?_, ?_⟩ <;>
              simp [hc, agreesRounds a12, agreesCur a12, agreesLastShot a12]

theorem keepsAcc_bombPlantBegin (st : PState) (tick : Int)
    (pl : Option PlayerRef) (site : String) :
    keepsAcc st (handleBombPlantBegin st tick pl site) := by
  unfold handleBombPlantBegin
  rcases hc : st.cur with _ | r <;> cases pl <;> simp [keepsAcc, hc]

theorem keepsAcc_bombPlanted (st : PState) (tick : Int)
    (pl : Option PlayerRef) (site : String) :
    keepsAcc st (handleBombPlanted st tick pl site) := by
  unfold handleBombPlanted
  rcases hc : st.cur with _ | r <;> cases pl <;> simp [keepsAcc, hc]

theorem keepsAcc_bombDefuseStart (st : PState) (tick : Int)
    (pl : Option PlayerRef) :
    keepsAcc st (handleBombDefuseStart st tick pl) := by
  unfold handleBombDefuseStart
  rcases hc : st.cur with _ | r <;> cases pl <;> simp [keepsAcc, hc]

theorem keepsAcc_bombDefused (st : PState) (tick : Int)
    (pl : Option PlayerRef) (site : String) :
    keepsAcc st (handleBombDefused st tick pl site) := by
  unfold handleBombDefused
  rcases hc : st.cur with _ | r <;> cases pl <;> simp [keepsAcc, hc]

theorem keepsAcc_bombExplode (st : PState) (tick : Int) :
    keepsAcc st (handleBombExplode st tick) := by
  unfold handleBombExplode
  rcases hc : st.cur with _ | r <;> simp [keepsAcc, hc]

theorem keepsAcc_bombDropped (st : PState) (tick : Int)
    (pl : Option PlayerRef) :
    keepsAcc st (handleBombDropped st tick pl) := by
  unfold handleBombDropped
  rcases hc : st.cur with _ | r <;> cases pl <;> simp [keepsAcc, hc]

theorem keepsAcc_bombPickup (st : PState) (tick : Int) :
    keepsAcc st (handleBombPickup st tick) := by
  unfold handleBombPickup
  rcases hc : st.cur with _ | r <;> simp [keepsAcc, hc]

theorem keepsAcc_smokeStart (st : PState) (tick : Int)
    (th : Option PlayerRef) (x y : Int) :
    keepsAcc st (handleSmokeStart st tick th x y) := by
  unfold handleSmokeStart
  rcases hc : st.cur with _ | r <;> simp [keepsAcc, hc]

theorem keepsAcc_heExplode (st : PState) (tick x y : Int) :
    keepsAcc st (handleHeExplode st tick x y) := by
  unfold handleHeExplode
  rcases hc : st.cur with _ | r <;> simp [keepsAcc, hc]

theorem keepsAcc_flashExplode (st : PState) (tick x y : Int) :
    keepsAcc st (handleFlashExplode st tick x y) := by
  unfold handleFlashExplode
  rcases hc : st.cur with _ | r <;> simp [keepsAcc, hc]

theorem keepsAcc_infernoStart (st : PState) (tick x y : Int) :
    keepsAcc st (handleInfernoStart st tick x y) := by
  unfold handleInfernoStart
  rcases hc : st.cur with _ | r <;> simp [keepsAcc, hc]

theorem handleWeaponFire_guard (st : PState) (tick : Int)
    (sh : Option PlayerRef) (h : st.cur = none ∨ sh = none) :
    handleWeaponFire st tick sh = st := by
  unfold handleWeaponFire
  rcases hc : st.cur with _ | r
  · cases sh <;> simp
  · rcases h with h | h
    · rw [h] at hc
      simp at hc
    · subst h
      simp

theorem keepsFrames_weaponFire (st : PState) (tick : Int)
    (sh : Option PlayerRef) :
    (handleWeaponFire st tick sh).rounds = st.rounds ∧
    (handleWeaponFire st tick sh).cur.map Round.frames
      = st.cur.map Round.frames := by
  cases sh with
  | none => rw [handleWeaponFire_guard st tick none (Or.inr rfl)]; exact ⟨rfl, rfl⟩
  | some sp =>
    rcases hc : st.cur with _ | r
    · rw [handleWeaponFire_guard st tick (some sp) (Or.inl hc)]
      exact ⟨rfl, by rw [hc]⟩
    · unfold handleWeaponFire
      rw [hc]
      dsimp only
      rcases hg : getIdx st (some sp) with ⟨pi, st1⟩
      dsimp only
      have a1 := getIdx_agrees st (some sp)
      rw [hg] at a1
      replace a1 : agrees st st1 := a1
      rcases hl : alookup st1.lastShot pi with _ | last <;> dsimp only
      · constructor <;> simp [hc, agreesRounds a1, agreesCur a1]
      · split
        · constructor <;> simp [hc, agreesRounds a1, agreesCur a1]
        · constructor <;> simp [hc, agreesRounds a1, agreesCur a1]

theorem captureFrame_tick (st : PState) (tick : Int) (snap : List PlayerRef) :
    (captureFrame st tick snap).1.tick = tick := by
  unfold captureFrame
  rcases h : snap.foldl capturePlayer ([], st) with ⟨ps, st1⟩
  simp

theorem closedRound_frames (st : PState) (r : Round) (tick : Int) (w : Team)
    (snap : List PlayerRef) :
    (closedRound st r tick w snap).1.frames = r.frames ∨
    (closedRound st r tick w snap).1.frames
      = r.frames ++ [(captureFrame st tick snap).1] := by
  unfold closedRound
  rcases h : captureFrame st tick snap with ⟨f, st1⟩
  dsimp only
  split <;> simp

theorem closedRound_shots (st : PState) (r : Round) (tick : Int) (w : Team)
    (snap : List PlayerRef) :
    (closedRound st r tick w snap).1.shots = r.shots := by
  unfold closedRound
  rcases h : captureFrame st tick snap with ⟨f, st1⟩
  dsimp only
  split <;> simp

theorem framesInv_of_parts {st st' : PState}
    (hr : st'.rounds = st.rounds)
    (hc : st'.cur.map Round.frames = st.cur.map Round.frames)
    (h : framesInv st) : framesInv st' := by
  constructor
  · intro r hcur f hf
    have hm : some r.frames = st.cur.map Round.frames := by
      rw [← hc, hcur]
      rfl
    cases hcur0 : st.cur with
    | none =>
      rw [hcur0] at hm
      simp at hm
    | some r0 =>
      rw [hcur0] at hm
      have hmm : r.frames = r0.frames := by simpa using hm
      exact h.1 r0 hcur0 f (hmm ▸ hf)
  · intro r hrm
    rw [hr] at hrm
    exact h.2 r hrm

theorem framesInv_of_keeps {st st' : PState} (hk : keepsAcc st st')
    (h : framesInv st) : framesInv st' :=
  framesInv_of_parts hk.1 hk.2.1 h

theorem framesInv_frameAdvance (st : PState) (tick : Int)
    (snap : List PlayerRef) (h : framesInv st) :
    framesInv (handleFrameAdvance st tick snap) := by
  unfold handleFrameAdvance
  rcases hc : st.cur with _ | r
  · exact h
  · dsimp only
    split
    · next hcond =>
      rcases hcf : captureFrame st tick snap with ⟨f, st1⟩
      have hag := captureFrame_agrees st tick snap
      rw [hcf] at hag
      replace hag : agrees st st1 := hag
      have hft : f.tick = tick := by
        have := captureFrame_tick st tick snap
        rw [hcf] at this
        exact this
      have hgt : goodTick tick :=
        ⟨lt_of_lt_of_le hcond.2.1 hcond.2.2.1, hcond.2.2.2⟩
      dsimp only
      split
      · constructor
        · intro r' hr' f' hf'
          simp only [Option.some.injEq] at hr'
          rw [← hr'] at hf'
          simp only at hf'
          rcases List.mem_append.mp hf' with hold | hnew
          · exact h.1 r hc f' hold
          · rw [List.mem_singleton.mp hnew, hft]
            exact hgt
        · intro r' hrm
          have : st1.rounds = st.rounds := agreesRounds hag
          simp only at hrm
          rw [this] at hrm
          exact h.2 r' hrm
      · exact framesInv_of_parts (agreesRounds hag) (by rw [agreesCur hag]) h
    · exact h

theorem framesInv_roundEnd (st : PState) (tick : Int) (w : Team)
    (snap : List PlayerRef) (h : framesInv st) :
    framesInv (handleRoundEnd st tick w snap) := by
  unfold handleRoundEnd
  rcases hc : st.cur with _ | r
  · exact h
  · dsimp only
    rcases hcr : closedRound st r tick w snap with ⟨r2, st1⟩
    dsimp only
    have hst1 : st1.rounds = st.rounds := by
      have h2 := closedRound_snd st r tick w snap
      rw [hcr] at h2
      rw [show st1 = (captureFrame st tick snap).2 from h2]
      exact (captureFrame_agrees st tick snap).1
    have hfr : ∀ f ∈ r2.frames.dropLast, goodTick f.tick := by
      have hcf := closedRound_frames st r tick w snap
      rw [hcr] at hcf
      rcases hcf with hcf | hcf
      · simp only at hcf
        rw [hcf]
        intro f hf
        exact h.1 r hc f ((List.dropLast_sublist r.frames).subset hf)
      · simp only at hcf
        rw [hcf, List.dropLast_concat]
        intro f hf
        exact h.1 r hc f hf
    constructor
    · intro r' hr'
      simp at hr'
    · intro r' hrm f hf
      simp only at hrm
      split at hrm
      · simp only at hrm
        rw [hst1] at hrm
        rcases List.mem_append.mp hrm with hold | hnew
        · exact h.2 r' hold f hf
        · rw [List.mem_singleton.mp hnew] at hf
          exact hfr f hf
      · rw [hst1] at hrm
        exact h.2 r' hrm f hf

theorem listModify_length {α : Type} (f : α → α) (n : Nat) (l : List α) :
    (listModify f n l).length = l.length := by
  induction l generalizing n with
  | nil => cases n <;> rfl
  | cons a as ih =>
    cases n with
    | zero => rfl
    | succ m => simp [listModify, ih]

theorem getD_listModify_self {α : Type} (f : α → α) (n : Nat) (l : List α)
    (d : α) (h : n < l.length) :
    (listModify f n l).getD n d = f (l.getD n d) := by
  induction l generalizing n with
  | nil => simp at h
  | cons a as ih =>
    cases n with
    | zero => rfl
    | succ m => simpa [listModify] using ih m (by simpa using h)

theorem getD_listModify_ne {α : Type} (f : α → α) (n m : Nat) (l : List α)
    (d : α) (h : m ≠ n) :
    (listModify f n l).getD m d = l.getD m d := by
  induction l generalizing n m with
  | nil => cases n <;> rfl
  | cons a as ih =>
    cases n with
    | zero =>
      cases m with
      | zero => exact absurd rfl h
      | succ m2 => rfl
    | succ n2 =>
      cases m with
      | zero => rfl
      | succ m2 => simpa [listModify] using ih n2 m2 (by omega)

theorem bumpRounds_length (ps : List PlayerState) (stats : List PlayerStat) :
    (bumpRounds stats ps).length = stats.length := by
  induction ps generalizing stats with
  | nil => rfl
  | cons p rest ih =>
    unfold bumpRounds
    split
    · rw [ih, listModify_length]
    · exact ih stats

theorem bumpRounds_r (ps : List PlayerState) (stats : List PlayerStat)
    (hnd : (ps.map PlayerState.idx).Nodup) (i : Nat) (hi : i < stats.length) :
    ((bumpRounds stats ps).getD i PlayerStat.zero).r
      = (stats.getD i PlayerStat.zero).r
        + (if Int.ofNat i ∈ ps.map PlayerState.idx then 1 else 0) := by
  induction ps generalizing stats with
  | nil => simp [bumpRounds]
  | cons p rest ih =>
    unfold bumpRounds
    obtain ⟨hp, hrest⟩ : p.idx ∉ rest.map PlayerState.idx ∧ (rest.map PlayerState.idx).Nodup := by
      rw [List.map_cons, List.nodup_cons] at hnd
      exact hnd
    by_cases hip : Int.ofNat i = p.idx
    · have hb : 0 ≤ p.idx ∧ p.idx < Int.ofNat stats.length := by
        rw [← hip, Int.ofNat_eq_natCast, Int.ofNat_eq_natCast]
        omega
      rw [if_pos hb]
      have htn : p.idx.toNat = i := by
        rw [← hip, Int.ofNat_eq_natCast]
        omega
      have hnotin : Int.ofNat i ∉ rest.map PlayerState.idx := by
        rw [hip]
        exact hp
      have hmemc : Int.ofNat i ∈ (p :: rest).map PlayerState.idx := by
        rw [List.map_cons, hip]
        exact List.mem_cons_self _ _
      rw [ih _ hrest (by rw [listModify_length]; exact hi), if_neg hnotin, htn,
        getD_listModify_self _ _ _ _ hi, if_pos hmemc]
      simp
    · have hmem : (Int.ofNat i ∈ (p :: rest).map PlayerState.idx)
          ↔ (Int.ofNat i ∈ rest.map PlayerState.idx) := by
        rw [List.map_cons, List.mem_cons]
        exact or_iff_right hip
      rw [if_congr hmem rfl rfl]
      split
      · next hb =>
        have htn : p.idx.toNat ≠ i := by
          intro hcon
          apply hip
          have h1 := hb.1
          rw [Int.ofNat_eq_natCast]
          omega
        rw [ih _ hrest (by rw [listModify_length]; exact hi)]
        rw [getD_listModify_ne _ _ _ _ _ (fun hcon => htn hcon.symm)]
      · exact ih _ hrest hi

/-! ### Claim theorems -/

/-- C1 (code_bug evidence): the sampling loop of `Parse` has no guard
against the decoder reporting the same tick on two consecutive stream
advances, so on `traceC1` the retained round captures two frames at tick
640 and its frame-tick sequence is not strictly increasing — contradicting
the claim and the `lastSampledTick` deduplication documented in
`docs/design.md`. -/
theorem c1_duplicate_tick_frames :
    ((runEvents traceC1).rounds.map (fun r => r.frames.map Frame.tick)
      = [[640, 640, 656, 672, 688, 700]]) ∧
    (∃ r ∈ (runEvents traceC1).rounds,
      ¬ List.Pairwise (· < ·) (r.frames.map Frame.tick)) := by
  constructor
  · decide
  · decide

/-- C2 (code_bug evidence): the `GrenadeProjectileDestroy` handler copies
the whole raw trajectory into the trail — on an 81-sample trajectory the
produced `GrenadeTrail` has 81 points, exceeding the 80-point bound the
claim (and `docs/design.md`) state. -/
theorem c2_no_subsampling_81_points :
    ∃ tr : GrenadeTrail,
      destroyTrail true (some ⟨some EquipmentType.smoke, traj81⟩) = some tr ∧
      tr.points.length = 81 ∧ ¬ (tr.points.length ≤ 80) := by
  decide

/-- C3 counterexample: the final frame is force-captured at the round-end
tick with no divisibility check; on `traceC3` the retained round contains
a frame at tick 1001, which is not a multiple of `SampleTicks`. -/
theorem c3_forced_frame_not_multiple :
    ∃ r ∈ (runEvents traceC3).rounds, ∃ f ∈ r.frames,
      ¬ (f.tick % SampleTicks = 0) := by
  decide

/-- C6: while a round is open, a smoke-start appends a grenade whose end
tick is its start tick plus 1152, and an incendiary-start appends one
whose end tick is its start tick plus 448 (the embedded engine has no
expiry handler at all, so no expiry notification can influence either). -/
theorem c6_fixed_grenade_durations (st : PState) (r : Round)
    (t1 t2 x1 y1 x2 y2 : Int) (th : Option PlayerRef)
    (h : st.cur = some r) :
    (∃ g : Grenade, (handleSmokeStart st t1 th x1 y1).cur
        = some { r with grenades := r.grenades ++ [g] } ∧
      g.startTick = t1 ∧ g.endTick = t1 + 1152) ∧
    (∃ g : Grenade, (handleInfernoStart st t2 x2 y2).cur
        = some { r with grenades := r.grenades ++ [g] } ∧
      g.startTick = t2 ∧ g.endTick = t2 + 448) := by
  constructor
  · refine ⟨⟨t1, t1 + 1152,
      (match th with
       | some thp =>
         if thp.team = Team.ct then 4 else if thp.team = Team.t then 5 else 0
       | none => 0), x1, y1⟩, ?_, rfl, rfl⟩
    simp [handleSmokeStart, h]
  · exact ⟨⟨t2, t2 + 448, 3, x2, y2⟩, by simp [handleInfernoStart, h], rfl, rfl⟩

/-- C6 witness: the spec's scenario — a smoke starting at tick 1000 ends
at tick 2152; an incendiary starting at tick 1000 ends at tick 1448. -/
theorem c6_fixed_grenade_durations_witness :
    (∃ g : Grenade, (handleSmokeStart stOpen 1000 none 7 8).cur
        = some { r0 with grenades := r0.grenades ++ [g] } ∧
      g.startTick = 1000 ∧ g.endTick = 2152) ∧
    (∃ g : Grenade, (handleInfernoStart stOpen 1000 9 10).cur
        = some { r0 with grenades := r0.grenades ++ [g] } ∧
      g.startTick = 1000 ∧ g.endTick = 1448) := by
  have h := c6_fixed_grenade_durations stOpen r0 1000 1000 7 8 9 10 none rfl
  norm_num at h
  exact h

/-- C7: any kill, player-damaged, bomb, grenade, or weapon-fired
notification handled while no round is open — and any kill whose attacker
or victim is nil — leaves the entire aggregator state unchanged. -/
theorem c7_out_of_round_dropped (st : PState) (ev : Ev)
    (h : (st.cur = none ∧ dropGuarded ev = true) ∨
      (∃ t k v w hs, ev = Ev.kill t k v w hs ∧ (k = none ∨ v = none))) :
    step st ev = st := by
  rcases h with ⟨hcur, hg⟩ | ⟨t, k, v, w, hs, rfl, hkv⟩
  · cases ev with
    | kill t k v w hs => exact handleKill_nilguard st t k v w hs (Or.inl hcur)
    | playerHurt a v hd =>
      show handlePlayerHurt st a v hd = st
      unfold handlePlayerHurt
      cases a <;> cases v <;> simp [hcur]
    | bombPlantBegin t pl site =>
      show handleBombPlantBegin st t pl site = st
      unfold handleBombPlantBegin
      cases pl <;> simp [hcur]
    | bombPlanted t pl site =>
      show handleBombPlanted st t pl site = st
      unfold handleBombPlanted
      cases pl <;> simp [hcur]
    | bombDefuseStart t pl =>
      show handleBombDefuseStart st t pl = st
      unfold handleBombDefuseStart
      cases pl <;> simp [hcur]
    | bombDefused t pl site =>
      show handleBombDefused st t pl site = st
      unfold handleBombDefused
      cases pl <;> simp [hcur]
    | bombExplode t =>
      show handleBombExplode st t = st
      unfold handleBombExplode
      simp [hcur]
    | bombDropped t pl =>
      show handleBombDropped st t pl = st
      unfold handleBombDropped
      cases pl <;> simp [hcur]
    | bombPickup t =>
      show handleBombPickup st t = st
      unfold handleBombPickup
      simp [hcur]
    | smokeStart t th x y =>
      show handleSmokeStart st t th x y = st
      unfold handleSmokeStart
      simp [hcur]
    | heExplode t x y =>
      show handleHeExplode st t x y = st
      unfold handleHeExplode
      simp [hcur]
    | flashExplode t x y =>
      show handleFlashExplode st t x y = st
      unfold handleFlashExplode
      simp [hcur]
    | infernoStart t x y =>
      show handleInfernoStart st t x y = st
      unfold handleInfernoStart
      simp [hcur]
    | weaponFire t sh =>
      show handleWeaponFire st t sh = st
      unfold handleWeaponFire
      cases sh <;> simp [hcur]
    | roundStart w => simp [dropGuarded] at hg
    | freezeTimeEnd t => simp [dropGuarded] at hg
    | roundEnd t w snap => simp [dropGuarded] at hg
    | frameAdvance t snap => simp [dropGuarded] at hg
  · exact handleKill_nilguard st t k v w hs (Or.inr hkv)

/-- C7 witness: a bomb-explode notification before any round opened is a
no-op, and so is a kill with a nil attacker inside an open round. -/
theorem c7_out_of_round_dropped_witness :
    step initState (Ev.bombExplode 5) = initState ∧
    step stOpen (Ev.kill 6 none (some pA) none false) = stOpen := by
  constructor
  · exact c7_out_of_round_dropped initState (Ev.bombExplode 5)
      (Or.inl ⟨rfl, rfl⟩)
  · exact c7_out_of_round_dropped stOpen (Ev.kill 6 none (some pA) none false)
      (Or.inr ⟨6, none, some pA, none, false, rfl, Or.inl rfl⟩)

/-- C4: a round closed by a round-end notification is appended to the
output exactly when, after the forced final capture, it holds at least 5
frames; with fewer than 5 frames the output is unchanged. -/
theorem c4_round_retention (st : PState) (r : Round) (tick : Int) (w : Team)
    (snap : List PlayerRef) (h : st.cur = some r) :
    (5 ≤ (closedRound st r tick w snap).1.frames.length →
      (handleRoundEnd st tick w snap).rounds
        = st.rounds ++ [(closedRound st r tick w snap).1]) ∧
    ((closedRound st r tick w snap).1.frames.length < 5 →
      (handleRoundEnd st tick w snap).rounds = st.rounds) := by
  have hrounds : ((captureFrame st tick snap).2).rounds = st.rounds :=
    (captureFrame_agrees st tick snap).1
  rcases hc : closedRound st r tick w snap with ⟨r2, st1⟩
  have hst1 : st1.rounds = st.rounds := by
    have h2 := closedRound_snd st r tick w snap
    rw [hc] at h2
    rw [show st1 = (captureFrame st tick snap).2 from h2]
    exact hrounds
  simp only [handleRoundEnd, h]
  rw [hc]
  dsimp only
  constructor
  · intro h5
    rw [if_pos h5]
    simp [hst1]
  · intro h5
    rw [if_neg (by omega)]
    simpa using hst1

/-- C4 witness: on the five-frame scenario round of `traceC3`, the closed
round has exactly 5 frames and is appended to the output. -/
theorem c4_round_retention_witness :
    (5 ≤ (closedRound (runEvents (traceC3.take 6)) r0FourFrames 1001 Team.ct
      snapA).1.frames.length →
      (handleRoundEnd (runEvents (traceC3.take 6)) 1001 Team.ct snapA).rounds
        = (runEvents (traceC3.take 6)).rounds
          ++ [(closedRound (runEvents (traceC3.take 6)) r0FourFrames 1001
                Team.ct snapA).1]) ∧
    ((closedRound (runEvents (traceC3.take 6)) r0FourFrames 1001 Team.ct
      snapA).1.frames.length < 5 →
      (handleRoundEnd (runEvents (traceC3.take 6)) 1001 Team.ct snapA).rounds
        = (runEvents (traceC3.take 6)).rounds) :=
  c4_round_retention (runEvents (traceC3.take 6)) r0FourFrames 1001 Team.ct
    snapA (by decide)

/-- C9: when the closed round meets the 5-frame retention threshold and the
first frame's index list has no duplicates, every in-range stats slot's
rounds-played counter grows by exactly 1 when its index appears in the
round's first frame and by 0 otherwise; when the round is discarded, the
stats are exactly those left by the forced capture. -/
theorem c9_rounds_played_credit (st : PState) (r : Round) (tick : Int)
    (w : Team) (snap : List PlayerRef) (h : st.cur = some r)
    (hnd : ((((closedRound st r tick w snap).1.frames.headD
      ⟨0, []⟩).players).map PlayerState.idx).Nodup) :
    (5 ≤ (closedRound st r tick w snap).1.frames.length →
      ∀ i : Nat, i < (closedRound st r tick w snap).2.stats.length →
        ((handleRoundEnd st tick w snap).stats.getD i PlayerStat.zero).r
          = ((closedRound st r tick w snap).2.stats.getD i PlayerStat.zero).r
            + (if Int.ofNat i ∈ (((closedRound st r tick w snap).1.frames.headD
                ⟨0, []⟩).players).map PlayerState.idx then 1 else 0)) ∧
    ((closedRound st r tick w snap).1.frames.length < 5 →
      (handleRoundEnd st tick w snap).stats
        = (closedRound st r tick w snap).2.stats) := by
  rcases hc : closedRound st r tick w snap with ⟨r2, st1⟩
  rw [hc] at hnd
  replace hnd : ((r2.frames.headD ⟨0, []⟩).players.map PlayerState.idx).Nodup := hnd
  simp only [handleRoundEnd, h]
  rw [hc]
  constructor
  · intro h5 i hi
    replace h5 : 5 ≤ r2.frames.length := h5
    replace hi : i < st1.stats.length := hi
    rw [if_pos h5, if_pos (show 0 < r2.frames.length by omega)]
    simpa using bumpRounds_r _ _ hnd i hi
  · intro h5
    rw [if_neg (Nat.not_le.mpr h5)]

/-- C9 witness: on the five-frame round of `traceC3`, player 0 appears in
the first frame and their rounds-played counter is credited once. -/
theorem c9_rounds_played_credit_witness :
    (5 ≤ (closedRound (runEvents (traceC3.take 6)) r0FourFrames 1001 Team.ct
      snapA).1.frames.length →
      ∀ i : Nat, i < (closedRound (runEvents (traceC3.take 6)) r0FourFrames
        1001 Team.ct snapA).2.stats.length →
        ((handleRoundEnd (runEvents (traceC3.take 6)) 1001 Team.ct
          snapA).stats.getD i PlayerStat.zero).r
          = ((closedRound (runEvents (traceC3.take 6)) r0FourFrames 1001
              Team.ct snapA).2.stats.getD i PlayerStat.zero).r
            + (if Int.ofNat i ∈ (((closedRound (runEvents (traceC3.take 6))
                r0FourFrames 1001 Team.ct snapA).1.frames.headD
                ⟨0, []⟩).players).map PlayerState.idx then 1 else 0)) ∧
    ((closedRound (runEvents (traceC3.take 6)) r0FourFrames 1001 Team.ct
      snapA).1.frames.length < 5 →
      (handleRoundEnd (runEvents (traceC3.take 6)) 1001 Team.ct snapA).stats
        = (closedRound (runEvents (traceC3.take 6)) r0FourFrames 1001 Team.ct
            snapA).2.stats) :=
  c9_rounds_played_credit (runEvents (traceC3.take 6)) r0FourFrames 1001
    Team.ct snapA (by decide) (by decide)

/-- C8 counterexample: the full zoom gesture includes `clampPan`; zooming
out from 2× to 1× at the canvas corner (0, 0) snaps the pan to 0, and the
world point that was under the cursor, (256, −256), lands at (256, 256)
instead of (0, 0) — 256 pixels away, far beyond rounding tolerance. -/
theorem c8_clamp_breaks_anchor :
    w2c ⟨0, 0, 1⟩ ⟨1024, 1024, 2, 0, 0⟩ 256 (-256) = (0, 0) ∧
    w2c ⟨0, 0, 1⟩ (zoomGesture ⟨1024, 1024, 2, 0, 0⟩ 0 0 1) 256 (-256)
      = (256, 256) ∧
    w2c ⟨0, 0, 1⟩ (zoomGesture ⟨1024, 1024, 2, 0, 0⟩ 0 0 1) 256 (-256)
      ≠ (0, 0) := by
  refine ⟨?_, ?_, ?_⟩
  · norm_num [w2c, radarSize]
  · norm_num [w2c, zoomGesture, zoomPanRaw, clampPan, radarSize]
  · norm_num [w2c, zoomGesture, zoomPanRaw, clampPan, radarSize]

/-- C8 (amended): when the zoom gesture's pan update is not altered by
`clampPan`, any world point that mapped to the gesture point (mx, my)
before the zoom change maps to it again after — the anchoring identity is
exact over `ℚ`. -/
theorem c8_zoom_anchored (m : MapMeta) (v : Viewport) (mx my z1 wx wy : ℚ)
    (hz : v.zoom ≠ 0)
    (hmap : w2c m v wx wy = (mx, my))
    (hnc : clampPan (zoomPanRaw v mx my z1) = zoomPanRaw v mx my z1) :
    w2c m (zoomGesture v mx my z1) wx wy = (mx, my) := by
  unfold zoomGesture
  rw [hnc]
  unfold w2c at hmap ⊢
  unfold zoomPanRaw
  simp only [Prod.mk.injEq] at hmap ⊢
  obtain ⟨h1, h2⟩ := hmap
  constructor
  · have key : mx - v.canvasW / 2 - v.panX
        = ((wx - m.posX) / m.scale * (v.canvasW / radarSize) - v.canvasW / 2)
          * v.zoom := by
      linarith
    rw [key]
    field_simp
    ring
  · have key : my - v.canvasH / 2 - v.panY
        = ((m.posY - wy) / m.scale * (v.canvasW / radarSize) - v.canvasH / 2)
          * v.zoom := by
      linarith
    rw [key]
    field_simp
    ring

/-- C8 witness: zooming in from 1× to 2× at (256, 256) keeps the world
point (256, −256) under the cursor (the clamp is a no-op there). -/
theorem c8_zoom_anchored_witness :
    w2c ⟨0, 0, 1⟩ (zoomGesture ⟨1024, 1024, 1, 0, 0⟩ 256 256 2) 256 (-256)
      = (256, 256) :=
  c8_zoom_anchored ⟨0, 0, 1⟩ ⟨1024, 1024, 1, 0, 0⟩ 256 256 2 256 (-256)
    (by norm_num)
    (by norm_num [w2c, radarSize])
    (by norm_num [clampPan, zoomPanRaw])

theorem framesInv_step (st : PState) (ev : Ev) (h : framesInv st) :
    framesInv (step st ev) := by
  cases ev with
  | roundStart w =>
    cases w
    · constructor
      · intro r hr f hf
        rw [show (step st (.roundStart false)).cur
            = some ⟨st.roundNum + 1, "", st.ctScore, st.tScore, 0, [], [], [],
                [], [], []⟩ from rfl] at hr
        injection hr with hr
        subst hr
        simp at hf
      · intro r hrm
        exact h.2 r hrm
    · exact h
  | freezeTimeEnd t => exact framesInv_of_keeps (keepsAcc_freezeTimeEnd st t) h
  | roundEnd t w snap =>
    simp only [step]
    exact framesInv_roundEnd st t w snap h
  | kill t k v wp hs =>
    simp only [step]
    exact framesInv_of_keeps (keepsAcc_kill st t k v wp hs) h
  | playerHurt a v hd =>
    simp only [step]
    exact framesInv_of_keeps (keepsAcc_playerHurt st a v hd) h
  | bombPlantBegin t pl site =>
    simp only [step]
    exact framesInv_of_keeps (keepsAcc_bombPlantBegin st t pl site) h
  | bombPlanted t pl site =>
    simp only [step]
    exact framesInv_of_keeps (keepsAcc_bombPlanted st t pl site) h
  | bombDefuseStart t pl =>
    simp only [step]
    exact framesInv_of_keeps (keepsAcc_bombDefuseStart st t pl) h
  | bombDefused t pl site =>
    simp only [step]
    exact framesInv_of_keeps (keepsAcc_bombDefused st t pl site) h
  | bombExplode t =>
    simp only [step]
    exact framesInv_of_keeps (keepsAcc_bombExplode st t) h
  | bombDropped t pl =>
    simp only [step]
    exact framesInv_of_keeps (keepsAcc_bombDropped st t pl) h
  | bombPickup t =>
    simp only [step]
    exact framesInv_of_keeps (keepsAcc_bombPickup st t) h
  | smokeStart t th x y =>
    simp only [step]
    exact framesInv_of_keeps (keepsAcc_smokeStart st t th x y) h
  | heExplode t x y =>
    simp only [step]
    exact framesInv_of_keeps (keepsAcc_heExplode st t x y) h
  | flashExplode t x y =>
    simp only [step]
    exact framesInv_of_keeps (keepsAcc_flashExplode st t x y) h
  | infernoStart t x y =>
    simp only [step]
    exact framesInv_of_keeps (keepsAcc_infernoStart st t x y) h
  | weaponFire t sh =>
    simp only [step]
    exact framesInv_of_parts (keepsFrames_weaponFire st t sh).1
      (keepsFrames_weaponFire st t sh).2 h
  | frameAdvance t snap =>
    simp only [step]
    exact framesInv_frameAdvance st t snap h

theorem framesInv_init : framesInv initState := by
  constructor
  · intro r hr
    simp [initState] at hr
  · intro r hrm
    simp [initState] at hrm

theorem framesInv_run (evs : List Ev) : framesInv (runEvents evs) := by
  have main : ∀ l : List Ev, ∀ st : PState,
      framesInv st → framesInv (l.foldl step st) := by
    intro l
    induction l with
    | nil => exact fun st h => h
    | cons e l2 ih => exact fun st h => ih (step st e) (framesInv_step st e h)
  exact main evs initState framesInv_init

/-- C3 (amended): every frame tick in any output round except possibly the
round's final frame — the one force-captured at the round-end tick, which
carries whatever tick the round ended on — is positive and an exact
multiple of `SampleTicks`. -/
theorem c3_sampled_frame_ticks (evs : List Ev) :
    ∀ r ∈ (runEvents evs).rounds, ∀ f ∈ r.frames.dropLast,
      0 < f.tick ∧ f.tick % SampleTicks = 0 :=
  fun r hr f hf => (framesInv_run evs).2 r hr f hf

/-- C3 witness: the first frame of `traceC1`'s retained round is at tick
640, positive and a multiple of 16. -/
theorem c3_sampled_frame_ticks_witness :
    0 < (Frame.tick ⟨640, [psA]⟩) ∧
    (Frame.tick ⟨640, [psA]⟩) % SampleTicks = 0 :=
  c3_sampled_frame_ticks traceC1 roundC1 (by decide) ⟨640, [psA]⟩ (by decide)

theorem alookup_cons {α β : Type} [DecidableEq α] (k : α) (v : β)
    (l : List (α × β)) (x : α) :
    alookup ((k, v) :: l) x = if k = x then some v else alookup l x := rfl

theorem lastTick_append (p : Int) (l : List Shot) (s : Shot) :
    lastTick p (l ++ [s])
      = if s.pIdx = p then some s.tick else lastTick p l := by
  induction l with
  | nil =>
    simp only [List.nil_append, lastTick]
  | cons a l2 ih =>
    rw [List.cons_append]
    rw [show lastTick p (a :: (l2 ++ [s]))
        = (match lastTick p (l2 ++ [s]) with
           | some t => some t
           | none => if a.pIdx = p then some a.tick else none) from rfl]
    rw [show lastTick p (a :: l2)
        = (match lastTick p l2 with
           | some t => some t
           | none => if a.pIdx = p then some a.tick else none) from rfl]
    rw [ih]
    by_cases hp : s.pIdx = p
    · simp only [if_pos hp]
    · simp only [if_neg hp]

theorem lastTick_none_not_mem (p : Int) (l : List Shot)
    (h : lastTick p l = none) : ∀ x ∈ l, ¬ x.pIdx = p := by
  induction l with
  | nil => intro x hx; simp at hx
  | cons a l2 ih =>
    intro x hx
    unfold lastTick at h
    rcases hl : lastTick p l2 with _ | t
    · rw [hl] at h
      simp only at h
      rcases List.mem_cons.mp hx with hx | hx
      · subst hx
        intro hp
        rw [if_pos hp] at h
        exact Option.noConfusion h
      · exact ih (by rw [hl]) x hx
    · rw [hl] at h
      simp at h

theorem lastTick_some_mem (p : Int) (l : List Shot) (t : Int)
    (h : lastTick p l = some t) : ∃ y ∈ l, y.pIdx = p ∧ y.tick = t := by
  induction l with
  | nil => simp [lastTick] at h
  | cons a l2 ih =>
    unfold lastTick at h
    rcases hl : lastTick p l2 with _ | t2
    · rw [hl] at h
      simp only at h
      by_cases hp : a.pIdx = p
      · rw [if_pos hp] at h
        injection h with h
        exact ⟨a, List.mem_cons_self a l2, hp, h⟩
      · rw [if_neg hp] at h
        exact Option.noConfusion h
    · rw [hl] at h
      simp only at h
      injection h with h
      obtain ⟨y, hy, hyp, hyt⟩ := ih (by rw [hl, h])
      exact ⟨y, List.mem_cons_of_mem a hy, hyp, hyt⟩

theorem lastTick_bound (p : Int) (l : List Shot) (t : Int)
    (hsp : Spaced l) (h : lastTick p l = some t) :
    ∀ x ∈ l, x.pIdx = p → x.tick = t ∨ x.tick + SampleTicks ≤ t := by
  induction l with
  | nil => intro x hx; simp at hx
  | cons a l2 ih =>
    obtain ⟨ha, hsp2⟩ := List.pairwise_cons.mp hsp
    intro x hx hxp
    unfold lastTick at h
    rcases hl : lastTick p l2 with _ | t2
    · rw [hl] at h
      simp only at h
      rcases List.mem_cons.mp hx with hx | hx
      · subst hx
        rw [if_pos hxp] at h
        injection h with h
        exact Or.inl h
      · exact absurd hxp (lastTick_none_not_mem p l2 hl x hx)
    · rw [hl] at h
      simp only at h
      injection h with h
      subst h
      rcases List.mem_cons.mp hx with hx | hx
      · subst hx
        obtain ⟨y, hy, hyp, hyt⟩ := lastTick_some_mem p l2 t2 hl
        right
        rw [← hyt]
        exact ha y hy (by rw [hxp, hyp])
      · exact ih hsp2 hl x hx hxp

theorem spaced_append (l : List Shot) (s : Shot) (hsp : Spaced l)
    (hall : ∀ x ∈ l, shotRel x s) : Spaced (l ++ [s]) := by
  rw [Spaced, List.pairwise_append]
  refine ⟨hsp, List.pairwise_singleton _ _, ?_⟩
  intro a ha b hb
  rw [List.mem_singleton.mp hb]
  exact hall a ha

theorem shotsInv_of_parts {st st' : PState}
    (hr : st'.rounds = st.rounds)
    (hs : st'.cur.map Round.shots = st.cur.map Round.shots)
    (hl : st'.lastShot = st.lastShot)
    (h : shotsInv st) : shotsInv st' := by
  constructor
  · intro r hcur
    have hm : some r.shots = st.cur.map Round.shots := by
      rw [← hs, hcur]
      rfl
    cases hcur0 : st.cur with
    | none =>
      rw [hcur0] at hm
      simp at hm
    | some r0 =>
      rw [hcur0] at hm
      have hmm : r.shots = r0.shots := by simpa using hm
      obtain ⟨hsp, hco⟩ := h.1 r0 hcur0
      constructor
      · rw [hmm]
        exact hsp
      · intro p
        rw [hl, hmm]
        exact hco p
  · intro r hrm
    rw [hr] at hrm
    exact h.2 r hrm

theorem shotsInv_of_keeps {st st' : PState} (hk : keepsAcc st st')
    (h : shotsInv st) : shotsInv st' :=
  shotsInv_of_parts hk.1 hk.2.2.1 hk.2.2.2 h

theorem keepsShots_frameAdvance (st : PState) (tick : Int)
    (snap : List PlayerRef) :
    (handleFrameAdvance st tick snap).rounds = st.rounds ∧
    (handleFrameAdvance st tick snap).cur.map Round.shots
      = st.cur.map Round.shots ∧
    (handleFrameAdvance st tick snap).lastShot = st.lastShot := by
  unfold handleFrameAdvance
  rcases hc : st.cur with _ | r
  · exact ⟨rfl, by rw [hc], rfl⟩
  · dsimp only
    split
    · rcases hcf : captureFrame st tick snap with ⟨f, st1⟩
      have hag := captureFrame_agrees st tick snap
      rw [hcf] at hag
      replace hag : agrees st st1 := hag
      dsimp only
      split
      · refine ⟨?_, ?_, ?_⟩ <;>
          simp [hc, agreesRounds hag, agreesCur hag, agreesLastShot hag]
      · refine ⟨?_, ?_, ?_⟩ <;>
          simp [hc, agreesRounds hag, agreesCur hag, agreesLastShot hag]
    · exact ⟨rfl, by rw [hc], rfl⟩

theorem shotsInv_weaponFire (st : PState) (tick : Int)
    (sh : Option PlayerRef) (h : shotsInv st) :
    shotsInv (handleWeaponFire st tick sh) := by
  cases sh with
  | none =>
    rw [handleWeaponFire_guard st tick none (Or.inr rfl)]
    exact h
  | some sp =>
    rcases hc : st.cur with _ | r
    · rw [handleWeaponFire_guard st tick (some sp) (Or.inl hc)]
      exact h
    · obtain ⟨hsp, hco⟩ := h.1 r hc
      unfold handleWeaponFire
      rw [hc]
      dsimp only
      rcases hg : getIdx st (some sp) with ⟨pi, st1⟩
      dsimp only
      have a1 := getIdx_agrees st (some sp)
      rw [hg] at a1
      replace a1 : agrees st st1 := a1
      have hls : st1.lastShot = st.lastShot := agreesLastShot a1
      rcases hl : alookup st1.lastShot pi with _ | last <;> dsimp only
      · -- first shot of this player in the round: always appended
        have hnone : lastTick pi r.shots = none := by
          rw [← hco pi, ← hls, hl]
        constructor
        · intro r' hcur'
          simp only [Option.some.injEq] at hcur'
          rw [← hcur']
          constructor
          · exact spaced_append r.shots ⟨tick, pi⟩ hsp
              (fun x hx hpx => absurd hpx (lastTick_none_not_mem pi r.shots hnone x hx))
          · intro p
            simp only [alookup_cons, hls, lastTick_append]
            by_cases hp : pi = p
            · rw [if_pos hp, if_pos hp]
            · rw [if_neg hp, if_neg hp]
              exact hco p
        · intro r' hrm
          simp only at hrm
          rw [agreesRounds a1] at hrm
          exact h.2 r' hrm
      · split
        · exact shotsInv_of_keeps (keepsAcc_of_agrees a1) h
        · next hge =>
          have hsome : lastTick pi r.shots = some last := by
            rw [← hco pi, ← hls, hl]
          have hgap : last + SampleTicks ≤ tick := by
            simp only [not_lt] at hge
            omega
          constructor
          · intro r' hcur'
            simp only [Option.some.injEq] at hcur'
            rw [← hcur']
            constructor
            · refine spaced_append r.shots ⟨tick, pi⟩ hsp (fun x hx hpx => ?_)
              have hb := lastTick_bound pi r.shots last hsp hsome x hx hpx
              show x.tick + SampleTicks ≤ tick
              rcases hb with hb | hb <;> simp [SampleTicks] at * <;> omega
            · intro p
              simp only [alookup_cons, hls, lastTick_append]
              by_cases hp : pi = p
              · rw [if_pos hp, if_pos hp]
              · rw [if_neg hp, if_neg hp]
                exact hco p
          · intro r' hrm
            simp only at hrm
            rw [agreesRounds a1] at hrm
            exact h.2 r' hrm

theorem shotsInv_roundEnd (st : PState) (tick : Int) (w : Team)
    (snap : List PlayerRef) (h : shotsInv st) :
    shotsInv (handleRoundEnd st tick w snap) := by
  unfold handleRoundEnd
  rcases hc : st.cur with _ | r
  · exact h
  · dsimp only
    rcases hcr : closedRound st r tick w snap with ⟨r2, st1⟩
    dsimp only
    have hst1 : st1.rounds = st.rounds := by
      have h2 := closedRound_snd st r tick w snap
      rw [hcr] at h2
      rw [show st1 = (captureFrame st tick snap).2 from h2]
      exact (captureFrame_agrees st tick snap).1
    have hshots : r2.shots = r.shots := by
      have h2 := closedRound_shots st r tick w snap
      rw [hcr] at h2
      exact h2
    constructor
    · intro r' hr'
      simp at hr'
    · intro r' hrm
      simp only at hrm
      split at hrm
      · simp only at hrm
        rw [hst1] at hrm
        rcases List.mem_append.mp hrm with hold | hnew
        · exact h.2 r' hold
        · rw [List.mem_singleton.mp hnew, hshots]
          exact (h.1 r hc).1
      · rw [hst1] at hrm
        exact h.2 r' hrm

theorem shotsInv_step (st : PState) (ev : Ev) (h : shotsInv st) :
    shotsInv (step st ev) := by
  cases ev with
  | roundStart w =>
    cases w
    · constructor
      · intro r hr
        rw [show (step st (.roundStart false)).cur
            = some ⟨st.roundNum + 1, "", st.ctScore, st.tScore, 0, [], [], [],
                [], [], []⟩ from rfl] at hr
        injection hr with hr
        subst hr
        exact ⟨List.Pairwise.nil, fun p => rfl⟩
      · intro r hrm
        exact h.2 r hrm
    · exact h
  | freezeTimeEnd t => exact shotsInv_of_keeps (keepsAcc_freezeTimeEnd st t) h
  | roundEnd t w snap =>
    simp only [step]
    exact shotsInv_roundEnd st t w snap h
  | kill t k v wp hs =>
    simp only [step]
    exact shotsInv_of_keeps (keepsAcc_kill st t k v wp hs) h
  | playerHurt a v hd =>
    simp only [step]
    exact shotsInv_of_keeps (keepsAcc_playerHurt st a v hd) h
  | bombPlantBegin t pl site =>
    simp only [step]
    exact shotsInv_of_keeps (keepsAcc_bombPlantBegin st t pl site) h
  | bombPlanted t pl site =>
    simp only [step]
    exact shotsInv_of_keeps (keepsAcc_bombPlanted st t pl site) h
  | bombDefuseStart t pl =>
    simp only [step]
    exact shotsInv_of_keeps (keepsAcc_bombDefuseStart st t pl) h
  | bombDefused t pl site =>
    simp only [step]
    exact shotsInv_of_keeps (keepsAcc_bombDefused st t pl site) h
  | bombExplode t =>
    simp only [step]
    exact shotsInv_of_keeps (keepsAcc_bombExplode st t) h
  | bombDropped t pl =>
    simp only [step]
    exact shotsInv_of_keeps (keepsAcc_bombDropped st t pl) h
  | bombPickup t =>
    simp only [step]
    exact shotsInv_of_keeps (keepsAcc_bombPickup st t) h
  | smokeStart t th x y =>
    simp only [step]
    exact shotsInv_of_keeps (keepsAcc_smokeStart st t th x y) h
  | heExplode t x y =>
    simp only [step]
    exact shotsInv_of_keeps (keepsAcc_heExplode st t x y) h
  | flashExplode t x y =>
    simp only [step]
    exact shotsInv_of_keeps (keepsAcc_flashExplode st t x y) h
  | infernoStart t x y =>
    simp only [step]
    exact shotsInv_of_keeps (keepsAcc_infernoStart st t x y) h
  | weaponFire t sh =>
    simp only [step]
    exact shotsInv_weaponFire st t sh h
  | frameAdvance t snap =>
    simp only [step]
    obtain ⟨h1, h2, h3⟩ := keepsShots_frameAdvance st t snap
    exact shotsInv_of_parts h1 h2 h3 h

theorem shotsInv_init : shotsInv initState := by
  constructor
  · intro r hr
    simp [initState] at hr
  · intro r hrm
    simp [initState] at hrm

theorem shotsInv_run (evs : List Ev) : shotsInv (runEvents evs) := by
  have main : ∀ l : List Ev, ∀ st : PState,
      shotsInv st → shotsInv (l.foldl step st) := by
    intro l
    induction l with
    | nil => exact fun st h => h
    | cons e l2 ih => exact fun st h => ih (step st e) (shotsInv_step st e h)
  exact main evs initState shotsInv_init

/-- C10: in any output round's shots list, any two entries of the same
player are at least `SampleTicks` = 16 ticks apart; a weapon-fired event
arriving fewer than 16 ticks after the same player's last recorded shot in
the round appends nothing and leaves the dedup map unchanged; and the
per-player last-shot map is cleared at every non-warmup round start. -/
theorem c10_shot_dedup :
    (∀ evs : List Ev, ∀ r ∈ (runEvents evs).rounds, Spaced r.shots) ∧
    (∀ (st : PState) (r : Round) (tick last : Int) (sp : PlayerRef),
      st.cur = some r →
      alookup st.lastShot (getIdx st (some sp)).1 = some last →
      tick - last < SampleTicks →
      (handleWeaponFire st tick (some sp)).cur = some r ∧
      (handleWeaponFire st tick (some sp)).lastShot = st.lastShot) ∧
    (∀ st : PState, (step st (.roundStart false)).lastShot = []) := by
  refine ⟨fun evs r hr => (shotsInv_run evs).2 r hr, ?_, fun st => rfl⟩
  intro st r tick last sp hc hlook hlt
  unfold handleWeaponFire
  rw [hc]
  dsimp only
  rcases hg : getIdx st (some sp) with ⟨pi, st1⟩
  dsimp only
  have a1 := getIdx_agrees st (some sp)
  rw [hg] at a1
  replace a1 : agrees st st1 := a1
  rw [hg] at hlook
  dsimp only at hlook
  rw [agreesLastShot a1, hlook]
  dsimp only
  rw [if_pos hlt]
  exact ⟨by rw [agreesCur a1, hc], agreesLastShot a1⟩

/-- C10 witness: the retained round of `traceC1` has spaced shots; with a
shot recorded at tick 5, a weapon-fire at tick 10 (5 ticks later) appends
nothing; a round start clears the dedup map. -/
theorem c10_shot_dedup_witness :
    Spaced roundC1.shots ∧
    ((handleWeaponFire stW 10 (some pA)).cur = some rW ∧
     (handleWeaponFire stW 10 (some pA)).lastShot = stW.lastShot) ∧
    (step initState (.roundStart false)).lastShot = [] :=
  ⟨c10_shot_dedup.1 traceC1 roundC1 (by decide),
   c10_shot_dedup.2.1 stW rW 10 5 pA (by decide) (by decide) (by decide),
   c10_shot_dedup.2.2 initState⟩

theorem alookup_mem {α β : Type} [DecidableEq α] (l : List (α × β)) (x : α)
    (v : β) (h : alookup l x = some v) : (x, v) ∈ l := by
  induction l with
  | nil => simp [alookup] at h
  | cons q rest ih =>
    rcases q with ⟨k, w⟩
    rw [alookup_cons] at h
    by_cases hk : k = x
    · rw [if_pos hk] at h
      injection h with h
      subst hk
      subst h
      exact List.mem_cons_self _ _
    · rw [if_neg hk] at h
      exact List.mem_cons_of_mem _ (ih h)

theorem alookup_none_keys {α β : Type} [DecidableEq α] (l : List (α × β))
    (x : α) (h : alookup l x = none) : x ∉ l.map Prod.fst := by
  induction l with
  | nil => simp
  | cons q rest ih =>
    rcases q with ⟨k, w⟩
    rw [alookup_cons] at h
    by_cases hk : k = x
    · rw [if_pos hk] at h
      exact Option.noConfusion h
    · rw [if_neg hk] at h
      simp only [List.map_cons, List.mem_cons]
      rintro (hx | hx)
      · exact hk hx.symm
      · exact ih h hx

theorem snd_nodup_inj {α β : Type} (l : List (α × β))
    (hN : (l.map Prod.snd).Nodup) {x y : α} {m : β}
    (h1 : (x, m) ∈ l) (h2 : (y, m) ∈ l) : x = y := by
  induction l with
  | nil => simp at h1
  | cons q rest ih =>
    rw [List.map_cons, List.nodup_cons] at hN
    obtain ⟨hq, hrest⟩ := hN
    rcases List.mem_cons.mp h1 with h1 | h1 <;>
      rcases List.mem_cons.mp h2 with h2 | h2
    · exact congrArg Prod.fst (h1.trans h2.symm)
    · exfalso
      apply hq
      rw [← h1]
      simpa using List.mem_map_of_mem Prod.snd h2
    · exfalso
      apply hq
      rw [← h2]
      simpa using List.mem_map_of_mem Prod.snd h1
    · exact ih hrest h1 h2

theorem pidxExt_rfl (st : PState) : pidxExt st st :=
  ⟨id, fun _ _ => rfl⟩

theorem pidxExt_trans {a b c : PState} (h1 : pidxExt a b) (h2 : pidxExt b c) :
    pidxExt a c := by
  refine ⟨fun hOK => h2.1 (h1.1 hOK), fun x hx => ?_⟩
  rw [h2.2 x (by rw [h1.2 x hx]; exact hx), h1.2 x hx]

theorem pidxExt_of_same {st st' : PState} (hp : st'.pidx = st.pidx)
    (hpl : st'.players = st.players) : pidxExt st st' := by
  constructor
  · intro hOK
    unfold pidxOK
    rw [hp, hpl]
    exact hOK
  · intro x _
    rw [hp]

theorem getIdx_pidxExt (st : PState) (p : Option PlayerRef) :
    pidxExt st (getIdx st p).2 := by
  cases p with
  | none => exact pidxExt_rfl st
  | some q =>
    unfold getIdx
    rcases hla : alookup st.pidx q.sid with _ | i <;> simp only [hla]
    · constructor
      · intro hOK
        obtain ⟨hb, hk, hv⟩ := hOK
        refine ⟨?_, ?_, ?_⟩
        · intro e he
          simp only [List.length_append, List.length_cons, List.length_nil]
          rcases List.mem_cons.mp he with he | he
          · subst he
            omega
          · have := hb e he
            omega
        · simp only [List.map_cons]
          exact List.nodup_cons.mpr ⟨alookup_none_keys st.pidx q.sid hla, hk⟩
        · simp only [List.map_cons]
          refine List.nodup_cons.mpr ⟨?_, hv⟩
          intro hmem
          obtain ⟨e, he, hesnd⟩ := List.mem_map.mp hmem
          have := hb e he
          omega
      · intro x hx
        simp only [alookup_cons]
        by_cases hq : q.sid = x
        · exfalso
          rw [← hq] at hx
          rw [hla] at hx
          simp at hx
        · rw [if_neg hq]
    · constructor
      · intro hOK
        obtain ⟨hb, hk, hv⟩ := hOK
        refine ⟨?_, hk, hv⟩
        intro e he
        rw [listModify_length]
        exact hb e he
      · intro x _
        rfl

theorem getIdx_self (st : PState) (q : PlayerRef) :
    ∃ n : Nat, (getIdx st (some q)).1 = Int.ofNat n ∧
      alookup (getIdx st (some q)).2.pidx q.sid = some n := by
  unfold getIdx
  rcases hla : alookup st.pidx q.sid with _ | i <;> simp only [hla]
  · exact ⟨st.players.length, rfl, by simp [alookup_cons]⟩
  · exact ⟨i, rfl, rfl⟩

theorem capturePlayer_pidxExt (acc : List PlayerState × PState)
    (p : PlayerRef) : pidxExt acc.2 (capturePlayer acc p).2 := by
  unfold capturePlayer
  split
  · exact pidxExt_rfl _
  · simpa using getIdx_pidxExt acc.2 (some p)

theorem foldCapture_pidxExt (snap : List PlayerRef)
    (acc : List PlayerState × PState) :
    pidxExt acc.2 ((snap.foldl capturePlayer acc).2) := by
  induction snap generalizing acc with
  | nil => exact pidxExt_rfl _
  | cons p rest ih =>
    simpa using pidxExt_trans (capturePlayer_pidxExt acc p)
      (ih (capturePlayer acc p))

theorem captureFrame_pidxExt (st : PState) (tick : Int)
    (snap : List PlayerRef) : pidxExt st (captureFrame st tick snap).2 := by
  unfold captureFrame
  simpa using foldCapture_pidxExt snap ([], st)

theorem ledSum_congr (p1 p2 : List (Nat × Nat)) (led : List (Nat × Nat × Int))
    (i j : Int)
    (h : ∀ e ∈ led, alookup p2 e.1 = alookup p1 e.1 ∧
      alookup p2 e.2.1 = alookup p1 e.2.1) :
    ledSum p2 led i j = ledSum p1 led i j := by
  unfold ledSum
  suffices hgen : ∀ acc : Int,
      led.foldl (fun acc e =>
        if (alookup p2 e.1).map Int.ofNat = some i ∧
            (alookup p2 e.2.1).map Int.ofNat = some j then acc + e.2.2
        else acc) acc
      = led.foldl (fun acc e =>
        if (alookup p1 e.1).map Int.ofNat = some i ∧
            (alookup p1 e.2.1).map Int.ofNat = some j then acc + e.2.2
        else acc) acc by
    exact hgen 0
  induction led with
  | nil => intro acc; rfl
  | cons e rest ih =>
    intro acc
    simp only [List.foldl_cons]
    obtain ⟨h1, h2⟩ := h e (List.mem_cons_self _ _)
    rw [h1, h2]
    exact ih (fun e2 he2 => h e2 (List.mem_cons_of_mem _ he2)) _

theorem ledSum_append (pidx : List (Nat × Nat)) (led : List (Nat × Nat × Int))
    (e : Nat × Nat × Int) (i j : Int) :
    ledSum pidx (led ++ [e]) i j
      = ledSum pidx led i j
        + (if (alookup pidx e.1).map Int.ofNat = some i ∧
              (alookup pidx e.2.1).map Int.ofNat = some j then e.2.2 else 0) := by
  unfold ledSum
  rw [List.foldl_append]
  simp only [List.foldl_cons, List.foldl_nil]
  split <;> simp

theorem pairDmg_append (led : List (Nat × Nat × Int)) (e : Nat × Nat × Int)
    (a v : Nat) :
    pairDmg (led ++ [e]) a v
      = pairDmg led a v + (if e.1 = a ∧ e.2.1 = v then e.2.2 else 0) := by
  unfold pairDmg
  rw [List.foldl_append]
  simp only [List.foldl_cons, List.foldl_nil]
  split <;> simp

theorem ledSum_eq_pairDmg (pidx : List (Nat × Nat))
    (led : List (Nat × Nat × Int)) (i j : Int) (a v : Nat)
    (h : ∀ e ∈ led,
      ((alookup pidx e.1).map Int.ofNat = some i ∧
        (alookup pidx e.2.1).map Int.ofNat = some j) ↔ (e.1 = a ∧ e.2.1 = v)) :
    ledSum pidx led i j = pairDmg led a v := by
  unfold ledSum pairDmg
  suffices hgen : ∀ acc : Int,
      led.foldl (fun acc e =>
        if (alookup pidx e.1).map Int.ofNat = some i ∧
            (alookup pidx e.2.1).map Int.ofNat = some j then acc + e.2.2
        else acc) acc
      = led.foldl (fun acc e =>
        if e.1 = a ∧ e.2.1 = v then acc + e.2.2 else acc) acc by
    exact hgen 0
  induction led with
  | nil => intro acc; rfl
  | cons e rest ih =>
    intro acc
    simp only [List.foldl_cons]
    rw [if_congr (h e (List.mem_cons_self _ _)) rfl rfl]
    exact ih (fun e2 he2 => h e2 (List.mem_cons_of_mem _ he2)) _

theorem dmgInv_mono {st st' : PState} {led : List (Nat × Nat × Int)}
    (hext : pidxExt st st') (hrvd : st'.roundVicDmg = st.roundVicDmg)
    (h : dmgInv st led) : dmgInv st' led := by
  obtain ⟨hOK, hkeys, hsum⟩ := h
  obtain ⟨hOKp, hstab⟩ := hext
  refine ⟨hOKp hOK, ?_, ?_⟩
  · intro e he
    obtain ⟨h1, h2⟩ := hkeys e he
    rw [hstab _ h1, hstab _ h2]
    exact ⟨h1, h2⟩
  · intro i j
    rw [hrvd, hsum i j]
    exact (ledSum_congr st.pidx st'.pidx led i j
      (fun e he => ⟨hstab _ (hkeys e he).1, hstab _ (hkeys e he).2⟩)).symm

theorem keepsReg_freezeTimeEnd (st : PState) (tick : Int) :
    (step st (.freezeTimeEnd tick)).pidx = st.pidx ∧
    (step st (.freezeTimeEnd tick)).players = st.players ∧
    (step st (.freezeTimeEnd tick)).roundVicDmg = st.roundVicDmg := by
  unfold step
  rcases hc : st.cur with _ | r <;> simp [hc]

theorem keepsReg_bombPlantBegin (st : PState) (tick : Int)
    (pl : Option PlayerRef) (site : String) :
    (handleBombPlantBegin st tick pl site).pidx = st.pidx ∧
    (handleBombPlantBegin st tick pl site).players = st.players ∧
    (handleBombPlantBegin st tick pl site).roundVicDmg = st.roundVicDmg := by
  unfold handleBombPlantBegin
  rcases hc : st.cur with _ | r <;> cases pl <;> simp [hc]

theorem keepsReg_bombPlanted (st : PState) (tick : Int)
    (pl : Option PlayerRef) (site : String) :
    (handleBombPlanted st tick pl site).pidx = st.pidx ∧
    (handleBombPlanted st tick pl site).players = st.players ∧
    (handleBombPlanted st tick pl site).roundVicDmg = st.roundVicDmg := by
  unfold handleBombPlanted
  rcases hc : st.cur with _ | r <;> cases pl <;> simp [hc]

theorem keepsReg_bombDefuseStart (st : PState) (tick : Int)
    (pl : Option PlayerRef) :
    (handleBombDefuseStart st tick pl).pidx = st.pidx ∧
    (handleBombDefuseStart st tick pl).players = st.players ∧
    (handleBombDefuseStart st tick pl).roundVicDmg = st.roundVicDmg := by
  unfold handleBombDefuseStart
  rcases hc : st.cur with _ | r <;> cases pl <;> simp [hc]

theorem keepsReg_bombDefused (st : PState) (tick : Int)
    (pl : Option PlayerRef) (site : String) :
    (handleBombDefused st tick pl site).pidx = st.pidx ∧
    (handleBombDefused st tick pl site).players = st.players ∧
    (handleBombDefused st tick pl site).roundVicDmg = st.roundVicDmg := by
  unfold handleBombDefused
  rcases hc : st.cur with _ | r <;> cases pl <;> simp [hc]

theorem keepsReg_bombExplode (st : PState) (tick : Int) :
    (handleBombExplode st tick).pidx = st.pidx ∧
    (handleBombExplode st tick).players = st.players ∧
    (handleBombExplode st tick).roundVicDmg = st.roundVicDmg := by
  unfold handleBombExplode
  rcases hc : st.cur with _ | r <;> simp [hc]

theorem keepsReg_bombDropped (st : PState) (tick : Int)
    (pl : Option PlayerRef) :
    (handleBombDropped st tick pl).pidx = st.pidx ∧
    (handleBombDropped st tick pl).players = st.players ∧
    (handleBombDropped st tick pl).roundVicDmg = st.roundVicDmg := by
  unfold handleBombDropped
  rcases hc : st.cur with _ | r <;> cases pl <;> simp [hc]

theorem keepsReg_bombPickup (st : PState) (tick : Int) :
    (handleBombPickup st tick).pidx = st.pidx ∧
    (handleBombPickup st tick).players = st.players ∧
    (handleBombPickup st tick).roundVicDmg = st.roundVicDmg := by
  unfold handleBombPickup
  rcases hc : st.cur with _ | r <;> simp [hc]

theorem keepsReg_smokeStart (st : PState) (tick : Int)
    (th : Option PlayerRef) (x y : Int) :
    (handleSmokeStart st tick th x y).pidx = st.pidx ∧
    (handleSmokeStart st tick th x y).players = st.players ∧
    (handleSmokeStart st tick th x y).roundVicDmg = st.roundVicDmg := by
  unfold handleSmokeStart
  rcases hc : st.cur with _ | r <;> simp [hc]

theorem keepsReg_heExplode (st : PState) (tick x y : Int) :
    (handleHeExplode st tick x y).pidx = st.pidx ∧
    (handleHeExplode st tick x y).players = st.players ∧
    (handleHeExplode st tick x y).roundVicDmg = st.roundVicDmg := by
  unfold handleHeExplode
  rcases hc : st.cur with _ | r <;> simp [hc]

theorem keepsReg_flashExplode (st : PState) (tick x y : Int) :
    (handleFlashExplode st tick x y).pidx = st.pidx ∧
    (handleFlashExplode st tick x y).players = st.players ∧
    (handleFlashExplode st tick x y).roundVicDmg = st.roundVicDmg := by
  unfold handleFlashExplode
  rcases hc : st.cur with _ | r <;> simp [hc]

theorem keepsReg_infernoStart (st : PState) (tick x y : Int) :
    (handleInfernoStart st tick x y).pidx = st.pidx ∧
    (handleInfernoStart st tick x y).players = st.players ∧
    (handleInfernoStart st tick x y).roundVicDmg = st.roundVicDmg := by
  unfold handleInfernoStart
  rcases hc : st.cur with _ | r <;> simp [hc]

theorem killExt (st : PState) (t : Int) (k v : Option PlayerRef)
    (w : Option String) (hs : Bool) :
    pidxExt st (handleKill st t k v w hs) ∧
    (handleKill st t k v w hs).roundVicDmg = st.roundVicDmg := by
  cases k with
  | none =>
    rw [handleKill_nilguard st t none v w hs (Or.inr (Or.inl rfl))]
    exact ⟨pidxExt_rfl st, rfl⟩
  | some kp =>
    cases v with
    | none =>
      rw [handleKill_nilguard st t (some kp) none w hs (Or.inr (Or.inr rfl))]
      exact ⟨pidxExt_rfl st, rfl⟩
    | some vp =>
      rcases hc : st.cur with _ | r
      · rw [handleKill_nilguard st t (some kp) (some vp) w hs (Or.inl hc)]
        exact ⟨pidxExt_rfl st, rfl⟩
      · unfold handleKill
        rw [hc]
        dsimp only
        rcases hg1 : getIdx st (some kp) with ⟨ai, st1⟩
        rcases hg2 : getIdx st1 (some vp) with ⟨vi, st2⟩
        dsimp only
        have e1 := getIdx_pidxExt st (some kp)
        rw [hg1] at e1
        replace e1 : pidxExt st st1 := e1
        have e2 := getIdx_pidxExt st1 (some vp)
        rw [hg2] at e2
        replace e2 : pidxExt st1 st2 := e2
        have a1 := getIdx_agrees st (some kp)
        rw [hg1] at a1
        replace a1 : agrees st st1 := a1
        have a2 := getIdx_agrees st1 (some vp)
        rw [hg2] at a2
        replace a2 : agrees st1 st2 := a2
        constructor
        · exact pidxExt_trans (pidxExt_trans e1 e2) (pidxExt_of_same rfl rfl)
        · simp [agreesRvd a1, agreesRvd a2]

theorem weaponFireExt (st : PState) (tick : Int) (sh : Option PlayerRef) :
    pidxExt st (handleWeaponFire st tick sh) ∧
    (handleWeaponFire st tick sh).roundVicDmg = st.roundVicDmg := by
  cases sh with
  | none =>
    rw [handleWeaponFire_guard st tick none (Or.inr rfl)]
    exact ⟨pidxExt_rfl st, rfl⟩
  | some sp =>
    rcases hc : st.cur with _ | r
    · rw [handleWeaponFire_guard st tick (some sp) (Or.inl hc)]
      exact ⟨pidxExt_rfl st, rfl⟩
    · unfold handleWeaponFire
      rw [hc]
      dsimp only
      rcases hg : getIdx st (some sp) with ⟨pi, st1⟩
      dsimp only
      have e1 := getIdx_pidxExt st (some sp)
      rw [hg] at e1
      replace e1 : pidxExt st st1 := e1
      have a1 := getIdx_agrees st (some sp)
      rw [hg] at a1
      replace a1 : agrees st st1 := a1
      rcases hl : alookup st1.lastShot pi with _ | last <;> dsimp only
      · exact ⟨pidxExt_trans e1 (pidxExt_of_same rfl rfl), by simp [agreesRvd a1]⟩
      · split
        · exact ⟨e1, agreesRvd a1⟩
        · exact ⟨pidxExt_trans e1 (pidxExt_of_same rfl rfl), by simp [agreesRvd a1]⟩

theorem frameAdvanceExt (st : PState) (tick : Int) (snap : List PlayerRef) :
    pidxExt st (handleFrameAdvance st tick snap) ∧
    (handleFrameAdvance st tick snap).roundVicDmg = st.roundVicDmg := by
  unfold handleFrameAdvance
  rcases hc : st.cur with _ | r
  · exact ⟨pidxExt_rfl st, rfl⟩
  · dsimp only
    split
    · rcases hcf : captureFrame st tick snap with ⟨f, st1⟩
      have hag := captureFrame_agrees st tick snap
      rw [hcf] at hag
      replace hag : agrees st st1 := hag
      have hext := captureFrame_pidxExt st tick snap
      rw [hcf] at hext
      replace hext : pidxExt st st1 := hext
      dsimp only
      split
      · exact ⟨pidxExt_trans hext (pidxExt_of_same rfl rfl), by simp [agreesRvd hag]⟩
      · exact ⟨hext, agreesRvd hag⟩
    · exact ⟨pidxExt_rfl st, rfl⟩

theorem roundEndExt (st : PState) (tick : Int) (w : Team)
    (snap : List PlayerRef) :
    pidxExt st (handleRoundEnd st tick w snap) ∧
    (handleRoundEnd st tick w snap).roundVicDmg = st.roundVicDmg := by
  unfold handleRoundEnd
  rcases hc : st.cur with _ | r
  · exact ⟨pidxExt_rfl st, rfl⟩
  · dsimp only
    rcases hcr : closedRound st r tick w snap with ⟨r2, st1⟩
    dsimp only
    have hst1 : st1 = (captureFrame st tick snap).2 := by
      have h2 := closedRound_snd st r tick w snap
      rw [hcr] at h2
      exact h2
    have hext : pidxExt st st1 := by
      rw [hst1]
      exact captureFrame_pidxExt st tick snap
    have hag : agrees st st1 := by
      rw [hst1]
      exact captureFrame_agrees st tick snap
    split
    · exact ⟨pidxExt_trans hext (pidxExt_of_same rfl rfl), by simp [agreesRvd hag]⟩
    · exact ⟨pidxExt_trans hext (pidxExt_of_same rfl rfl), by simp [agreesRvd hag]⟩

theorem hurt_core (st st2 st3 : PState) (led : List (Nat × Nat × Int))
    (ap vp : PlayerRef) (na nv : Nat) (hd : Int)
    (h : dmgInv st led)
    (hext : pidxExt st st2)
    (hp3 : st3.pidx = st2.pidx)
    (hv3 : st3.roundVicDmg = st2.roundVicDmg)
    (hpl3 : st3.players = st2.players)
    (hrvd2 : st2.roundVicDmg = st.roundVicDmg)
    (hlna : alookup st2.pidx ap.sid = some na)
    (hlnv : alookup st2.pidx vp.sid = some nv) :
    dmgInv
      { st3 with roundVicDmg :=
          ((Int.ofNat na, Int.ofNat nv),
            (alookup st3.roundVicDmg (Int.ofNat na, Int.ofNat nv)).getD 0 + hd)
            :: st3.roundVicDmg }
      (led ++ [(ap.sid, vp.sid, hd)]) := by
  obtain ⟨hOK, hkeys, hsum⟩ := h
  obtain ⟨hOKe, hstab⟩ := hext
  have hOK2 : pidxOK st2 := hOKe hOK
  refine ⟨?_, ?_, ?_⟩
  · refine (@pidxExt_of_same st2 _ ?_ ?_).1 hOK2
    · simpa using hp3
    · simpa using hpl3
  · intro e he
    have hpe : ({ st3 with roundVicDmg :=
        ((Int.ofNat na, Int.ofNat nv),
          (alookup st3.roundVicDmg (Int.ofNat na, Int.ofNat nv)).getD 0 + hd)
          :: st3.roundVicDmg } : PState).pidx = st2.pidx := by
      simpa using hp3
    rw [hpe]
    rcases List.mem_append.mp he with ho | hn
    · obtain ⟨h1, h2⟩ := hkeys e ho
      rw [hstab _ h1, hstab _ h2]
      exact ⟨h1, h2⟩
    · rw [List.mem_singleton.mp hn]
      simp [hlna, hlnv]
  · intro i j
    have hpe : ({ st3 with roundVicDmg :=
        ((Int.ofNat na, Int.ofNat nv),
          (alookup st3.roundVicDmg (Int.ofNat na, Int.ofNat nv)).getD 0 + hd)
          :: st3.roundVicDmg } : PState).pidx = st2.pidx := by
      simpa using hp3
    rw [hpe]
    have hled2 : ledSum st2.pidx led i j = ledSum st.pidx led i j :=
      ledSum_congr st.pidx st2.pidx led i j
        (fun e he => ⟨hstab _ (hkeys e he).1, hstab _ (hkeys e he).2⟩)
    rw [ledSum_append, hled2, ← hsum i j]
    have hrvd3 : st3.roundVicDmg = st.roundVicDmg := hv3.trans hrvd2
    show (alookup
        (((Int.ofNat na, Int.ofNat nv),
          (alookup st3.roundVicDmg (Int.ofNat na, Int.ofNat nv)).getD 0 + hd)
          :: st3.roundVicDmg) (i, j)).getD 0 = _
    rw [alookup_cons]
    by_cases hij : (Int.ofNat na, Int.ofNat nv) = (i, j)
    · rw [if_pos hij]
      have hcond : (alookup st2.pidx (ap.sid, vp.sid, hd).1).map Int.ofNat = some i ∧
          (alookup st2.pidx (ap.sid, vp.sid, hd).2.1).map Int.ofNat = some j := by
        have hi : Int.ofNat na = i := congrArg Prod.fst hij
        have hj : Int.ofNat nv = j := congrArg Prod.snd hij
        constructor
        · show (alookup st2.pidx ap.sid).map Int.ofNat = some i
          rw [hlna, ← hi]
          rfl
        · show (alookup st2.pidx vp.sid).map Int.ofNat = some j
          rw [hlnv, ← hj]
          rfl
      rw [if_pos hcond, hrvd3, ← hij]
      rfl
    · rw [if_neg hij]
      have hcond : ¬ ((alookup st2.pidx (ap.sid, vp.sid, hd).1).map Int.ofNat = some i ∧
          (alookup st2.pidx (ap.sid, vp.sid, hd).2.1).map Int.ofNat = some j) := by
        intro hcon
        apply hij
        obtain ⟨h1, h2⟩ := hcon
        rw [show (ap.sid, vp.sid, hd).1 = ap.sid from rfl, hlna] at h1
        rw [show (ap.sid, vp.sid, hd).2.1 = vp.sid from rfl, hlnv] at h2
        rw [show Option.map Int.ofNat (some na) = some (Int.ofNat na) from rfl] at h1
        rw [show Option.map Int.ofNat (some nv) = some (Int.ofNat nv) from rfl] at h2
        injection h1 with h1
        injection h2 with h2
        rw [h1, h2]
      rw [if_neg hcond, add_zero, hrvd3]

theorem dmgInv_hstep (s : PState × List (Nat × Nat × Int)) (ev : Ev)
    (h : dmgInv s.1 s.2) : dmgInv (hurtsStep s ev).1 (hurtsStep s ev).2 := by
  rcases s with ⟨st, led⟩
  cases ev with
  | roundStart w =>
    cases w
    · show dmgInv (step st (.roundStart false)) []
      refine ⟨(pidxExt_of_same rfl rfl).1 h.1, ?_, ?_⟩
      · intro e he
        simp at he
      · intro i j
        rfl
    · exact h
  | freezeTimeEnd t =>
    show dmgInv (step st (.freezeTimeEnd t)) led
    exact dmgInv_mono
      (pidxExt_of_same (keepsReg_freezeTimeEnd st t).1
        (keepsReg_freezeTimeEnd st t).2.1)
      (keepsReg_freezeTimeEnd st t).2.2 h
  | roundEnd t w snap =>
    show dmgInv (handleRoundEnd st t w snap) led
    exact dmgInv_mono (roundEndExt st t w snap).1 (roundEndExt st t w snap).2 h
  | kill t k v w hs =>
    show dmgInv (handleKill st t k v w hs) led
    exact dmgInv_mono (killExt st t k v w hs).1 (killExt st t k v w hs).2 h
  | playerHurt a v hd =>
    cases a with
    | none =>
      show dmgInv (handlePlayerHurt st none v hd) led
      rw [handlePlayerHurt_guard st none v hd (Or.inr (Or.inl rfl))]
      exact h
    | some ap =>
      cases v with
      | none =>
        show dmgInv (handlePlayerHurt st (some ap) none hd) led
        rw [handlePlayerHurt_guard st (some ap) none hd (Or.inr (Or.inr rfl))]
        exact h
      | some vp =>
        show dmgInv (handlePlayerHurt st (some ap) (some vp) hd)
          (if st.cur ≠ none ∧ ap.team ≠ vp.team then
            led ++ [(ap.sid, vp.sid, hd)] else led)
        rcases hc : st.cur with _ | r
        · rw [handlePlayerHurt_guard st (some ap) (some vp) hd (Or.inl hc)]
          rw [if_neg (fun hcon => hcon.1 rfl)]
          exact h
        · by_cases ht : ap.team = vp.team
          · have heq : handlePlayerHurt st (some ap) (some vp) hd = st := by
              unfold handlePlayerHurt
              rw [hc]
              dsimp only
              rw [if_pos ht]
            rw [heq, if_neg (fun hcon => hcon.2 ht)]
            exact h
          · rw [if_pos ⟨fun hcon => Option.noConfusion hcon, ht⟩]
            unfold handlePlayerHurt
            rw [hc]
            dsimp only
            rw [if_neg ht]
            rcases hg1 : getIdx st (some ap) with ⟨ai, st1⟩
            dsimp only
            rcases hg2 : getIdx st1 (some vp) with ⟨vi, st2⟩
            dsimp only
            have e1 := getIdx_pidxExt st (some ap)
            rw [hg1] at e1
            replace e1 : pidxExt st st1 := e1
            have e2 := getIdx_pidxExt st1 (some vp)
            rw [hg2] at e2
            replace e2 : pidxExt st1 st2 := e2
            have a1 := getIdx_agrees st (some ap)
            rw [hg1] at a1
            replace a1 : agrees st st1 := a1
            have a2 := getIdx_agrees st1 (some vp)
            rw [hg2] at a2
            replace a2 : agrees st1 st2 := a2
            have gs1 := getIdx_self st ap
            rw [hg1] at gs1
            obtain ⟨na, hna, hlna1⟩ := gs1
            replace hna : ai = Int.ofNat na := hna
            replace hlna1 : alookup st1.pidx ap.sid = some na := hlna1
            have gs2 := getIdx_self st1 vp
            rw [hg2] at gs2
            obtain ⟨nv, hnv, hlnv2⟩ := gs2
            replace hnv : vi = Int.ofNat nv := hnv
            replace hlnv2 : alookup st2.pidx vp.sid = some nv := hlnv2
            have hlna2 : alookup st2.pidx ap.sid = some na := by
              rw [e2.2 ap.sid (by rw [hlna1]; rfl)]
              exact hlna1
            subst hna
            subst hnv
            rw [if_pos ⟨Int.ofNat_le.mpr (Nat.zero_le na),
              Int.ofNat_le.mpr (Nat.zero_le nv)⟩]
            have hrvd2 : st2.roundVicDmg = st.roundVicDmg :=
              (agreesRvd a2).trans (agreesRvd a1)
            split
            · exact hurt_core st st2 _ led ap vp na nv hd h
                (pidxExt_trans e1 e2) rfl rfl rfl hrvd2 hlna2 hlnv2
            · exact hurt_core st st2 st2 led ap vp na nv hd h
                (pidxExt_trans e1 e2) rfl rfl rfl hrvd2 hlna2 hlnv2
  | bombPlantBegin t pl site =>
    show dmgInv (handleBombPlantBegin st t pl site) led
    exact dmgInv_mono
      (pidxExt_of_same (keepsReg_bombPlantBegin st t pl site).1
        (keepsReg_bombPlantBegin st t pl site).2.1)
      (keepsReg_bombPlantBegin st t pl site).2.2 h
  | bombPlanted t pl site =>
    show dmgInv (handleBombPlanted st t pl site) led
    exact dmgInv_mono
      (pidxExt_of_same (keepsReg_bombPlanted st t pl site).1
        (keepsReg_bombPlanted st t pl site).2.1)
      (keepsReg_bombPlanted st t pl site).2.2 h
  | bombDefuseStart t pl =>
    show dmgInv (handleBombDefuseStart st t pl) led
    exact dmgInv_mono
      (pidxExt_of_same (keepsReg_bombDefuseStart st t pl).1
        (keepsReg_bombDefuseStart st t pl).2.1)
      (keepsReg_bombDefuseStart st t pl).2.2 h
  | bombDefused t pl site =>
    show dmgInv (handleBombDefused st t pl site) led
    exact dmgInv_mono
      (pidxExt_of_same (keepsReg_bombDefused st t pl site).1
        (keepsReg_bombDefused st t pl site).2.1)
      (keepsReg_bombDefused st t pl site).2.2 h
  | bombExplode t =>
    show dmgInv (handleBombExplode st t) led
    exact dmgInv_mono
      (pidxExt_of_same (keepsReg_bombExplode st t).1
        (keepsReg_bombExplode st t).2.1)
      (keepsReg_bombExplode st t).2.2 h
  | bombDropped t pl =>
    show dmgInv (handleBombDropped st t pl) led
    exact dmgInv_mono
      (pidxExt_of_same (keepsReg_bombDropped st t pl).1
        (keepsReg_bombDropped st t pl).2.1)
      (keepsReg_bombDropped st t pl).2.2 h
  | bombPickup t =>
    show dmgInv (handleBombPickup st t) led
    exact dmgInv_mono
      (pidxExt_of_same (keepsReg_bombPickup st t).1
        (keepsReg_bombPickup st t).2.1)
      (keepsReg_bombPickup st t).2.2 h
  | smokeStart t th x y =>
    show dmgInv (handleSmokeStart st t th x y) led
    exact dmgInv_mono
      (pidxExt_of_same (keepsReg_smokeStart st t th x y).1
        (keepsReg_smokeStart st t th x y).2.1)
      (keepsReg_smokeStart st t th x y).2.2 h
  | heExplode t x y =>
    show dmgInv (handleHeExplode st t x y) led
    exact dmgInv_mono
      (pidxExt_of_same (keepsReg_heExplode st t x y).1
        (keepsReg_heExplode st t x y).2.1)
      (keepsReg_heExplode st t x y).2.2 h
  | flashExplode t x y =>
    show dmgInv (handleFlashExplode st t x y) led
    exact dmgInv_mono
      (pidxExt_of_same (keepsReg_flashExplode st t x y).1
        (keepsReg_flashExplode st t x y).2.1)
      (keepsReg_flashExplode st t x y).2.2 h
  | infernoStart t x y =>
    show dmgInv (handleInfernoStart st t x y) led
    exact dmgInv_mono
      (pidxExt_of_same (keepsReg_infernoStart st t x y).1
        (keepsReg_infernoStart st t x y).2.1)
      (keepsReg_infernoStart st t x y).2.2 h
  | weaponFire t sh =>
    show dmgInv (handleWeaponFire st t sh) led
    exact dmgInv_mono (weaponFireExt st t sh).1 (weaponFireExt st t sh).2 h
  | frameAdvance t snap =>
    show dmgInv (handleFrameAdvance st t snap) led
    exact dmgInv_mono (frameAdvanceExt st t snap).1
      (frameAdvanceExt st t snap).2 h

theorem dmgInv_init : dmgInv initState [] := by
  refine ⟨⟨?_, ?_, ?_⟩, ?_, ?_⟩
  · intro e he
    simp [initState] at he
  · simp [initState]
  · simp [initState]
  · intro e he
    simp at he
  · intro i j
    rfl

theorem dmgInv_runHurts (evs : List Ev) :
    dmgInv (runHurts evs).1 (runHurts evs).2 := by
  have main : ∀ l : List Ev, ∀ s : PState × List (Nat × Nat × Int),
      dmgInv s.1 s.2 → dmgInv (l.foldl hurtsStep s).1 (l.foldl hurtsStep s).2 := by
    intro l
    induction l with
    | nil => exact fun s h => h
    | cons e l2 ih => exact fun s h => ih (hurtsStep s e) (dmgInv_hstep s e h)
  exact main evs (initState, []) dmgInv_init

theorem runHurts_fst (evs : List Ev) : (runHurts evs).1 = runEvents evs := by
  have main : ∀ l : List Ev, ∀ s : PState × List (Nat × Nat × Int),
      (l.foldl hurtsStep s).1 = l.foldl step s.1 := by
    intro l
    induction l with
    | nil => exact fun s => rfl
    | cons e l2 ih =>
      intro s
      rw [List.foldl_cons, List.foldl_cons, ih (hurtsStep s e)]
      rfl
  exact main evs (initState, [])

/-- C5: a kill event handled while a round is open appends a `Kill` record
whose `DMG` field equals the total health damage the spec-side ledger
(`runHurts`) attributes to the (attacker, victim) steam-id pair: exactly
the player-damaged events handled in the same round up to the kill, with
self- and same-team damage excluded and the ledger reset at every round
start (no carry-over). -/
theorem c5_kill_dmg (evs : List Ev) (tick : Int) (a v : PlayerRef)
    (wp : Option String) (hs : Bool) (r : Round)
    (h : (runEvents evs).cur = some r) :
    ∃ k : Kill,
      (step (runEvents evs) (.kill tick (some a) (some v) wp hs)).cur
        = some { r with kills := r.kills ++ [k] } ∧
      k.dmg = pairDmg (runHurts evs).2 a.sid v.sid := by
  have hinv := dmgInv_runHurts evs
  rw [runHurts_fst evs] at hinv
  obtain ⟨hOK, hkeys, hsum⟩ := hinv
  show ∃ k : Kill,
    (handleKill (runEvents evs) tick (some a) (some v) wp hs).cur
      = some { r with kills := r.kills ++ [k] } ∧
    k.dmg = pairDmg (runHurts evs).2 a.sid v.sid
  unfold handleKill
  rw [h]
  dsimp only
  rcases hg1 : getIdx (runEvents evs) (some a) with ⟨ai, st1⟩
  dsimp only
  rcases hg2 : getIdx st1 (some v) with ⟨vi, st2⟩
  dsimp only
  have a1 := getIdx_agrees (runEvents evs) (some a)
  rw [hg1] at a1
  replace a1 : agrees (runEvents evs) st1 := a1
  have a2 := getIdx_agrees st1 (some v)
  rw [hg2] at a2
  replace a2 : agrees st1 st2 := a2
  have hrvd2 : st2.roundVicDmg = (runEvents evs).roundVicDmg :=
    (agreesRvd a2).trans (agreesRvd a1)
  refine ⟨⟨tick, ai, vi,
    (match wp with
     | some w => w
     | none => ""), hs, a.x, a.y, v.x, v.y,
    (alookup st2.roundVicDmg (ai, vi)).getD 0⟩, rfl, ?_⟩
  show (alookup st2.roundVicDmg (ai, vi)).getD 0
    = pairDmg (runHurts evs).2 a.sid v.sid
  rw [hrvd2, hsum ai vi]
  apply ledSum_eq_pairDmg
  intro e he
  obtain ⟨hk1, hk2⟩ := hkeys e he
  obtain ⟨m1, hm1⟩ := Option.isSome_iff_exists.mp hk1
  obtain ⟨m2, hm2⟩ := Option.isSome_iff_exists.mp hk2
  have hb1 : m1 < (runEvents evs).players.length :=
    hOK.1 (e.1, m1) (alookup_mem _ _ _ hm1)
  have hb2 : m2 < (runEvents evs).players.length :=
    hOK.1 (e.2.1, m2) (alookup_mem _ _ _ hm2)
  rw [hm1, hm2,
    show Option.map Int.ofNat (some m1) = some (Int.ofNat m1) from rfl,
    show Option.map Int.ofNat (some m2) = some (Int.ofNat m2) from rfl]
  rcases hla : alookup (runEvents evs).pidx a.sid with _ | na
  · -- attacker unseen before the kill: both sides are impossible
    unfold getIdx at hg1
    simp only [hla] at hg1
    injection hg1 with hai hst1
    constructor
    · rintro ⟨h1, _⟩
      exfalso
      injection h1 with h1
      rw [← hai] at h1
      have := Int.ofNat.inj h1
      omega
    · rintro ⟨he1, _⟩
      exfalso
      rw [he1, hla] at hm1
      exact Option.noConfusion hm1
  · -- attacker known: ai = na
    unfold getIdx at hg1
    simp only [hla] at hg1
    injection hg1 with hai hst1
    have hp1 : st1.pidx = (runEvents evs).pidx := by
      rw [← hst1]
    have hpl1 : st1.players.length = (runEvents evs).players.length := by
      rw [← hst1]
      exact listModify_length _ _ _
    rcases hlv : alookup (runEvents evs).pidx v.sid with _ | nv
    · -- victim unseen: both sides impossible on the second component
      have hlv1 : alookup st1.pidx v.sid = none := by
        rw [hp1]
        exact hlv
      unfold getIdx at hg2
      simp only [hlv1] at hg2
      injection hg2 with hvi hst2
      constructor
      · rintro ⟨_, h2⟩
        exfalso
        injection h2 with h2
        rw [← hvi] at h2
        have := Int.ofNat.inj h2
        omega
      · rintro ⟨_, he2⟩
        exfalso
        rw [he2, hlv] at hm2
        exact Option.noConfusion hm2
    · -- victim known: vi = nv
      have hlv1 : alookup st1.pidx v.sid = some nv := by
        rw [hp1]
        exact hlv
      unfold getIdx at hg2
      simp only [hlv1] at hg2
      injection hg2 with hvi hst2
      constructor
      · rintro ⟨h1, h2⟩
        injection h1 with h1
        injection h2 with h2
        rw [← hai] at h1
        rw [← hvi] at h2
        have hm1na : m1 = na := Int.ofNat.inj h1
        have hm2nv : m2 = nv := Int.ofNat.inj h2
        constructor
        · exact snd_nodup_inj (runEvents evs).pidx hOK.2.2
            (alookup_mem _ _ _ (hm1na ▸ hm1))
            (alookup_mem _ _ _ hla)
        · exact snd_nodup_inj (runEvents evs).pidx hOK.2.2
            (alookup_mem _ _ _ (hm2nv ▸ hm2))
            (alookup_mem _ _ _ hlv)
      · rintro ⟨he1, he2⟩
        have hm1na : m1 = na := by
          rw [he1, hla] at hm1
          injection hm1 with hm1
          exact hm1.symm
        have hm2nv : m2 = nv := by
          rw [he2, hlv] at hm2
          injection hm2 with hm2
          exact hm2.symm
        rw [hm1na, hm2nv, hai, hvi]
        exact ⟨rfl, rfl⟩


/-- Witness for C5 on `traceC5`: the kill's `dmg` is the ledger pair sum
(27 + 73 = 100). -/
theorem c5_kill_dmg_witness :
    ∃ k : Kill,
      (step (runEvents traceC5)
        (.kill 700 (some pA) (some pB) (some "ak47") true)).cur
          = some { rC5 with kills := rC5.kills ++ [k] } ∧
      k.dmg = pairDmg (runHurts traceC5).2 pA.sid pB.sid :=
  c5_kill_dmg traceC5 700 pA pB (some "ak47") true rC5 (by decide)

end DemoViewer
